import Mathlib

/-!
Formal model of the GPLAN region-based room-placement engine.

A shallow embedding of `strategy.py` (class `RegionBasedPlacement` and its helper
classes `Room`, `PlotRegion`, and the free function `are_adjacent`).

Modelling conventions:
* Python numbers are modelled by `ℚ` (the engine's examples use integers; float
  rounding is not modelled).
* A `Room`'s coordinates `x`, `y` are assigned and cleared together everywhere in
  the source, so they are modelled as one optional pair `pos`.
* Mutation is modelled by explicit state passing.  `placed_rooms` holds value
  snapshots of rooms at the moment they are appended; the source never mutates a
  room while it is a member of `placed_rooms`, so the snapshots stay in sync with
  the room objects.
* The wall clock read by `time.time()` is modelled by an oracle `clock : ℕ → ℚ`
  giving the elapsed seconds at the n-th timeout check, threaded as a counter.
* Python's `sorted` and `list.sort` are stable; they are modelled by
  `List.insertionSort` (also stable) with the matching `key`-based relation.
* `range(1, m)` (in `get_adjacent_positions`) requires an integer bound in
  Python; it is modelled with `Int.floor` so the model is total on `ℚ`.
* Raised exceptions are modelled by `Option`/`none` where a claim depends on
  them (the `ZeroDivisionError` reachable in the `hybrid` sort key).
-/

/-- `PlotRegion(x1, y1, x2, y2)` from `strategy.py` (the `name` attribute plays no
role in placement and is omitted). -/
structure PlotRegion where
  x1 : ℚ
  y1 : ℚ
  x2 : ℚ
  y2 : ℚ
  deriving DecidableEq, Repr

/-- `Room` from `strategy.py`: `id`, `width`, `height`, optional position, the
region it was placed in, and the `rotated` flag.  `x`/`y` are modelled as the
single optional pair `pos`; `name` is omitted. -/
structure Room where
  id : ℕ
  width : ℚ
  height : ℚ
  pos : Option (ℚ × ℚ)
  region : Option PlotRegion
  rotated : Bool
  deriving DecidableEq, Repr

instance : Inhabited Room := ⟨⟨0, 0, 0, none, none, false⟩⟩

/-- `Room.rotate`: swap width/height and toggle the flag. -/
def Room.rotate (r : Room) : Room :=
  { r with width := r.height, height := r.width, rotated := !r.rotated }

/-- `Room.area`. -/
def Room.area (r : Room) : ℚ := r.width * r.height

/-- `Room.get_rect`: `(x, y, width, height)`, or undefined while unplaced. -/
def Room.get_rect (r : Room) : Option (ℚ × ℚ × ℚ × ℚ) :=
  r.pos.map (fun p => (p.1, p.2, r.width, r.height))

/-- `Room.overlaps`: `False` when either room is unplaced, otherwise the
rectangles are not disjoint along either axis. -/
def Room.overlaps (a b : Room) : Bool :=
  match a.pos, b.pos with
  | some (ax, ay), some (xb, yb) =>
    if ax + a.width ≤ xb ∨ xb + b.width ≤ ax ∨ ay + a.height ≤ yb ∨ yb + b.height ≤ ay then
      false
    else true
  | _, _ => false

/-- `are_adjacent(rect1, rect2)`: the rectangles share a (full or partial) edge. -/
def are_adjacent (rect1 rect2 : ℚ × ℚ × ℚ × ℚ) : Bool :=
  let (x1, y1, w1, h1) := rect1
  let (x2, y2, w2, h2) := rect2
  if x1 + w1 = x2 ∨ x2 + w2 = x1 then
    if y1 + h1 ≤ y2 ∨ y2 + h2 ≤ y1 then false else true
  else if y1 + h1 = y2 ∨ y2 + h2 = y1 then
    if x1 + w1 ≤ x2 ∨ x2 + w2 ≤ x1 then false else true
  else false

/-- `Room.is_adjacent`: `False` when either room is unplaced. -/
def Room.is_adjacent (a b : Room) : Bool :=
  match a.get_rect, b.get_rect with
  | some ra, some rb => are_adjacent ra rb
  | _, _ => false

/-- `PlotRegion.contains(room, x, y)`: the room fits entirely in the region at
`(x, y)` in its current orientation. -/
def PlotRegion.contains (g : PlotRegion) (room : Room) (x y : ℚ) : Bool :=
  decide (g.x1 ≤ x ∧ x + room.width ≤ g.x2 ∧ g.y1 ≤ y ∧ y + room.height ≤ g.y2)

/-- Number of iterations of the Python loop `x = lo; while x <= hi: ...; x += step`
(for the positive step sizes the engine is configured with). -/
def stepCount (lo hi step : ℚ) : ℕ :=
  if hi < lo then 0 else (Int.floor ((hi - lo) / step)).toNat + 1

/-- `PlotRegion.get_sample_positions`: grid origins inside the region at which the
room (in its current orientation) still fits, outer loop over `x`, inner over `y`. -/
def PlotRegion.get_sample_positions (g : PlotRegion) (room : Room) (step_size : ℚ) :
    List (ℚ × ℚ) :=
  let xs := (List.range (stepCount g.x1 (g.x2 - room.width) step_size)).map
    (fun i => g.x1 + (i : ℚ) * step_size)
  let ys := (List.range (stepCount g.y1 (g.y2 - room.height) step_size)).map
    (fun i => g.y1 + (i : ℚ) * step_size)
  xs.flatMap (fun x => ys.map (fun y => (x, y)))

/-- Python's `range(1, m)` as rationals; the source only ever calls it with
integer dimensions (`range` demands an `int`), modelled by flooring `m`. -/
def offsetRange (m : ℚ) : List ℚ :=
  (List.range' 1 ((Int.floor m).toNat - 1)).map (fun k => (k : ℚ))

/-- The source's recurring idiom `if is_rotated != room.rotated: room.rotate()`. -/
def Room.orientTo (r : Room) (b : Bool) : Room :=
  if b ≠ r.rotated then r.rotate else r

/-- The source's trial-placement idiom: rotate to the candidate orientation, then
`room.x, room.y = position` and `room.region = region`. -/
def Room.place_at (r : Room) (b : Bool) (p : ℚ × ℚ) (g : PlotRegion) : Room :=
  { r.orientTo b with pos := some p, region := some g }

/-- Rotate to the candidate orientation and set only the position (the greedy
trial loop does not touch `room.region`). -/
def Room.move_to (r : Room) (b : Bool) (p : ℚ × ℚ) : Room :=
  { r.orientTo b with pos := some p }

/-- `room.x = None; room.y = None; room.region = None`. -/
def Room.clear_placement (r : Room) : Room :=
  { r with pos := none, region := none }

/-- `Room.get_adjacent_positions(other)`: candidate origins placing this room flush
against each side of `other`, plus sliding offsets, first in the original and then
(unconditionally — the `if rotation is allowed` of the comment in the source is
never tested) in the rotated orientation.  `rotated_room` has width `self.height`
and height `self.width`.  Empty when `other` is unplaced (never happens in the
source, which only passes placed rooms). -/
def Room.get_adjacent_positions (self other : Room) : List (ℚ × ℚ × Bool) :=
  match other.pos with
  | none => []
  | some (ox, oy) =>
    let lr_offs := offsetRange (min self.height other.height)
    let tb_offs := offsetRange (min self.width other.width)
    let lr_offs_rot := offsetRange (min self.width other.height)
    let tb_offs_rot := offsetRange (min self.height other.width)
    [(ox - self.width, oy, false), (ox + other.width, oy, false),
     (ox, oy - self.height, false), (ox, oy + other.height, false)]
    ++ lr_offs.flatMap (fun k => [(ox - self.width, oy + k, false), (ox - self.width, oy - k, false)])
    ++ lr_offs.flatMap (fun k => [(ox + other.width, oy + k, false), (ox + other.width, oy - k, false)])
    ++ tb_offs.flatMap (fun k => [(ox + k, oy - self.height, false), (ox - k, oy - self.height, false)])
    ++ tb_offs.flatMap (fun k => [(ox + k, oy + other.height, false), (ox - k, oy + other.height, false)])
    ++ [(ox - self.height, oy, true), (ox + other.width, oy, true),
        (ox, oy - self.width, true), (ox, oy + other.height, true)]
    ++ lr_offs_rot.flatMap (fun k => [(ox - self.height, oy + k, true), (ox - self.height, oy - k, true)])
    ++ lr_offs_rot.flatMap (fun k => [(ox + other.width, oy + k, true), (ox + other.width, oy - k, true)])
    ++ tb_offs_rot.flatMap (fun k => [(ox + k, oy - self.width, true), (ox - k, oy - self.width, true)])
    ++ tb_offs_rot.flatMap (fun k => [(ox + k, oy + other.height, true), (ox - k, oy + other.height, true)])

/-- The sort-method names accepted by `set_sort_method`. -/
inductive SortMethod
  | area | adjacency | width | height | perimeter | hybrid | degree_area
  deriving DecidableEq, Repr

/-- The configuration attributes of `RegionBasedPlacement` (the mutable
`rooms`/`placed_rooms` pair lives in `PState`).  `adjacency_graph` is the map
built by `_build_adjacency_graph`, which reproduces the `adjacency` dictionary
entry for entry, so a single function models both. `max_backtrack` and
`use_adjacency_driven` are set in `__init__` but never read and are omitted. -/
structure Strategy where
  regions : List PlotRegion
  adjacency_graph : ℕ → List ℕ
  sort_method : SortMethod
  optimize_rotations : Bool
  step_size : ℚ
  adjacency_weight : ℚ
  area_weight : ℚ
  timeout : ℚ

/-- The mutable placement state of `RegionBasedPlacement`: the working room list
and the placed list (snapshots of room values at commit time). -/
structure PState where
  rooms : List Room
  placed_rooms : List Room
  deriving DecidableEq, Repr

/-- `clear_placements`: clear every room's position, region and rotated flag
(width/height are left untouched) and empty the placed list. -/
def Strategy.clear_placements (_C : Strategy) (s : PState) : PState :=
  { rooms := s.rooms.map (fun r => { r with pos := none, region := none, rotated := false }),
    placed_rooms := [] }

/-- The largest room area, `max(r.area() for r in self.rooms)` over a nonempty list. -/
def maxRoomArea (r0 : Room) (rest : List Room) : ℚ :=
  rest.foldl (fun m r => max m r.area) r0.area

/-- `sort_rooms`: stable sort of the room list, descending in the method's key.
Python's `sorted` evaluates the key lazily per element, so an empty list never
evaluates a key; with a nonempty list the `hybrid` key divides by the maximum
room area and raises `ZeroDivisionError` when that maximum is `0`, modelled by
`none`. -/
def Strategy.sort_rooms (C : Strategy) (rooms : List Room) : Option (List Room) :=
  match C.sort_method with
  | .area => some (List.insertionSort (fun a b => -a.area ≤ -b.area) rooms)
  | .adjacency => some (List.insertionSort (fun a b =>
      -((C.adjacency_graph a.id).length : ℚ) ≤ -((C.adjacency_graph b.id).length : ℚ)) rooms)
  | .width => some (List.insertionSort (fun a b => -a.width ≤ -b.width) rooms)
  | .height => some (List.insertionSort (fun a b => -a.height ≤ -b.height) rooms)
  | .perimeter => some (List.insertionSort (fun a b =>
      -(a.width + a.height) ≤ -(b.width + b.height)) rooms)
  | .hybrid =>
    match rooms with
    | [] => some []
    | r0 :: rest =>
      let maxArea := maxRoomArea r0 rest
      if maxArea = 0 then none
      else some (List.insertionSort (fun a b =>
        -(C.adjacency_weight * ((C.adjacency_graph a.id).length : ℚ) + C.area_weight * a.area / maxArea)
          ≤ -(C.adjacency_weight * ((C.adjacency_graph b.id).length : ℚ) + C.area_weight * b.area / maxArea))
        (r0 :: rest))
  | .degree_area => some (List.insertionSort (fun a b =>
      -((C.adjacency_graph a.id).length : ℤ) < -((C.adjacency_graph b.id).length : ℤ) ∨
      ((C.adjacency_graph a.id).length = (C.adjacency_graph b.id).length ∧ -a.area ≤ -b.area)) rooms)

/-- `_get_region_fit_score(room, region, x, y)`: `0` unless the room fits, else
`room_area / (room_area + total_space)` where `total_space` is the sum of the four
side clearances. -/
def _get_region_fit_score (room : Room) (region : PlotRegion) (x y : ℚ) : ℚ :=
  if region.contains room x y then
    let left_space := x - region.x1
    let right_space := region.x2 - (x + room.width)
    let top_space := y - region.y1
    let bottom_space := region.y2 - (y + room.height)
    let total_space := left_space + right_space + top_space + bottom_space
    room.area / (room.area + total_space)
  else 0

/-- `_get_adjacency_score(room, position, orientation)`: the room is temporarily
moved to `position` in orientation `orientation` (and faithfully restored, so the
function is pure): for each placed room, `+1` when it is a required neighbour of
`room` and they are adjacent there, and additionally `+0.5` when `room` is a
required neighbour of it and they are adjacent there. -/
def _get_adjacency_score (C : Strategy) (placed_rooms : List Room) (room : Room)
    (position : ℚ × ℚ) (orientation : Bool) : ℚ :=
  let r := room.move_to orientation position
  placed_rooms.foldl (fun score placed_room =>
    let score := if (C.adjacency_graph room.id).contains placed_room.id ∧ r.is_adjacent placed_room
      then score + 1 else score
    if (C.adjacency_graph placed_room.id).contains room.id ∧ r.is_adjacent placed_room
      then score + 0.5 else score) 0

/-- A scored candidate `(position, region, is_rotated, score)`. -/
structure Candidate where
  pos : ℚ × ℚ
  region : PlotRegion
  is_rotated : Bool
  score : ℚ
  deriving DecidableEq, Repr

/-- `candidates.sort(key=lambda x: -x[3])`: stable, descending by score. -/
def sortCandidates (cands : List Candidate) : List Candidate :=
  List.insertionSort (fun c1 c2 => -c1.score ≤ -c2.score) cands

/-- The grid-sampling branch of `_generate_candidate_positions`: every region,
original orientation first, rotated if allowed, keeping positions with positive
fit score. -/
def grid_candidates (C : Strategy) (room : Room) : List Candidate :=
  C.regions.flatMap (fun region =>
    (region.get_sample_positions room C.step_size).filterMap (fun p =>
      let fit_score := _get_region_fit_score room region p.1 p.2
      if 0 < fit_score then some ⟨p, region, false, fit_score⟩ else none)
    ++ (if C.optimize_rotations then
      (region.get_sample_positions room.rotate C.step_size).filterMap (fun p =>
        let fit_score := _get_region_fit_score room.rotate region p.1 p.2
        if 0 < fit_score then some ⟨p, region, true, fit_score⟩ else none)
      else []))

/-- One adjacent position `p = (x, y, is_rotated)` of the adjacency-driven branch
of `_generate_candidate_positions`: rotate the room to the position's orientation,
score it inside every region, and append the scored candidates.  The source's
restore `if is_rotated != room.rotated: room.rotate()` runs after the room was
already rotated to `is_rotated` and therefore never fires, so the room stays in
the position's orientation. -/
def adj_pos_step (C : Strategy) (placed_rooms : List Room) (acc2 : List Candidate × Room)
    (p : ℚ × ℚ × Bool) : List Candidate × Room :=
  let pos := (p.1, p.2.1)
  let is_rotated := p.2.2
  let r := acc2.2.orientTo is_rotated
  let newcs := C.regions.filterMap (fun region =>
    let fit_score := _get_region_fit_score r region pos.1 pos.2
    if 0 < fit_score then
      let adj_score := _get_adjacency_score C placed_rooms r pos is_rotated
      some ⟨pos, region, is_rotated, 0.8 * adj_score + 0.2 * fit_score⟩
    else none)
  (acc2.1 ++ newcs, r)

/-- One target room of the adjacency-driven branch: all its adjacent positions in
order (computed from the room's current, threaded dimensions). -/
def adj_target_step (C : Strategy) (placed_rooms : List Room) (acc : List Candidate × Room)
    (placed_room : Room) : List Candidate × Room :=
  (acc.2.get_adjacent_positions placed_room).foldl (adj_pos_step C placed_rooms) acc

/-- The adjacency-driven branch of `_generate_candidate_positions`: positions
adjacent to each target room, threading the room's orientation mutations. -/
def adjacency_driven_candidates (C : Strategy) (placed_rooms : List Room) (room : Room)
    (targets : List Room) : List Candidate × Room :=
  targets.foldl (adj_target_step C placed_rooms) ([], room)

/-- The target list of `_generate_candidate_positions`: the placed rooms that are
required neighbours of `room`; when none is placed but some rooms are placed, all
placed rooms ("try positions near existing rooms anyway"). -/
def candidate_targets (C : Strategy) (placed_rooms : List Room) (room : Room) : List Room :=
  let adjacent_placed_rooms :=
    placed_rooms.filter (fun r => (C.adjacency_graph room.id).contains r.id)
  if adjacent_placed_rooms.isEmpty ∧ ¬placed_rooms.isEmpty then placed_rooms
  else adjacent_placed_rooms

/-- `_generate_candidate_positions(room)`.  Returns the sorted candidate list and
the room's final value.  The grid branch runs only when no adjacency target
exists, i.e. only when `placed_rooms` is empty (when rooms are placed but none is
a required neighbour, all placed rooms become targets). -/
def _generate_candidate_positions (C : Strategy) (placed_rooms : List Room) (room : Room) :
    List Candidate × Room :=
  if (candidate_targets C placed_rooms room).isEmpty then
    (sortCandidates (grid_candidates C room), room)
  else
    let folded := adjacency_driven_candidates C placed_rooms room
      (candidate_targets C placed_rooms room)
    (sortCandidates folded.1, folded.2)

/-- One candidate trial of the `for position, region, is_rotated, score in candidates`
loop of `_place_room_backtracking`: once a trial has succeeded (`true`) the loop
has returned and later candidates are not examined; otherwise rotate the current
room to the candidate's orientation, move it there, and if it overlaps no placed
room commit it and run `next` (the recursive call on the next index), undoing the
commit from the placed list when that fails.  The removal is by object identity in
Python; a failed call returns `placed_rooms` exactly as it received it
(`bt_false_placed` below), so the removed element is the last one. -/
def bt_try (room_idx : ℕ) (next : PState → ℕ → Bool × PState × ℕ)
    (a : Bool × PState × ℕ) (c : Candidate) : Bool × PState × ℕ :=
  match a with
  | (true, _, _) => a
  | (false, t, tk) =>
    let r := (t.rooms.getD room_idx default).place_at c.is_rotated c.pos c.region
    let t1 : PState := { t with rooms := t.rooms.set room_idx r }
    if t1.placed_rooms.any (fun placed_room => r.overlaps placed_room) then (false, t1, tk)
    else
      let t2 : PState := { t1 with placed_rooms := t1.placed_rooms ++ [r] }
      match next t2 tk with
      | (true, t3, tk3) => (true, t3, tk3)
      | (false, t3, tk3) => (false, { t3 with placed_rooms := t3.placed_rooms.dropLast }, tk3)

/-- `_place_room_backtracking(room_idx, depth, timeout_start)`.  `depth` is never
read and is omitted; `timeout_start` is always the truthy `time.time()` in the
source's calls, so the timeout check is always live, with the elapsed wall-clock
time of the n-th check modelled by `clock n` (counter `tick`).  `fuel` bounds the
recursion depth; the source recursion is bounded by `len(rooms) - room_idx`, so
`place_rooms` passes `length + 1` and the `0` case is never reached from it.
Removing the current room from `placed_rooms` after a failed recursive call is
`dropLast`: a failed call returns `placed_rooms` exactly as it received it
(`bt_false_placed` below), so the current room — appended immediately before the
call, and removed by object identity in Python — is the last element. -/
def _place_room_backtracking (C : Strategy) (clock : ℕ → ℚ) (fuel : ℕ) (s : PState)
    (room_idx : ℕ) (tick : ℕ) : Bool × PState × ℕ :=
  match fuel with
  | 0 => (false, s, tick)
  | fuel + 1 =>
    if C.timeout < clock tick then (false, s, tick + 1)
    else if s.rooms.length ≤ room_idx then (true, s, tick + 1)
    else
      let current_room := s.rooms.getD room_idx default
      let gen := _generate_candidate_positions C s.placed_rooms current_room
      let s1 : PState := { s with rooms := s.rooms.set room_idx gen.2 }
      let res := gen.1.foldl
        (bt_try room_idx (fun t tk => _place_room_backtracking C clock fuel t (room_idx + 1) tk))
        (false, s1, tick + 1)
      match res with
      | (true, t, tk) => (true, t, tk)
      | (false, t, tk) =>
        -- the source's "restore original orientation" compares the room's flag
        -- with itself (`current_room` aliases `self.rooms[room_idx]`) and never fires
        let r := t.rooms.getD room_idx default
        let r := if r.rotated ≠ r.rotated then r.rotate else r
        (false, { t with rooms := t.rooms.set room_idx r.clear_placement }, tk)

/-- One candidate trial of the greedy loop: rotate and move the room to the
candidate (leaving it there — the restore never fires), and when it overlaps no
placed room, recompute the combined score and keep the candidate if it is strictly
best so far. -/
def greedy_trial (C : Strategy) (placed_rooms : List Room)
    (a : Room × ℚ × Option (ℚ × ℚ) × Bool × Option PlotRegion) (c : Candidate) :
    Room × ℚ × Option (ℚ × ℚ) × Bool × Option PlotRegion :=
  let r := a.1.move_to c.is_rotated c.pos
  if placed_rooms.any (fun placed_room => r.overlaps placed_room) then
    (r, a.2)
  else
    let adjacency_score := _get_adjacency_score C placed_rooms r c.pos c.is_rotated
    let region_score := _get_region_fit_score r c.region c.pos.1 c.pos.2
    let combined_score := 0.8 * adjacency_score + 0.2 * region_score
    if a.2.1 < combined_score then (r, combined_score, some c.pos, c.is_rotated, some c.region)
    else (r, a.2)

/-- The `if best_pos:` commit at the end of the greedy loop body: `best_pos` is a
(truthy) pair exactly when some overlap-free candidate was seen, and then
`best_region` was recorded with it. -/
def greedy_commit (s : PState) (i : ℕ)
    (acc : Room × ℚ × Option (ℚ × ℚ) × Bool × Option PlotRegion) : PState :=
  match acc.2.2.1, acc.2.2.2.2 with
  | some best_pos, some best_region =>
    let r := acc.1.place_at acc.2.2.2.1 best_pos best_region
    { rooms := s.rooms.set i r, placed_rooms := s.placed_rooms ++ [r] }
  | _, _ => { s with rooms := s.rooms.set i acc.1 }

/-- One iteration of the `for room in sorted_rooms` loop of `_place_rooms_greedy`,
operating on the room at index `i` of the working list (the Python loop iterates
over the same list object `self.rooms` aliases).  The best candidate is committed
only if one exists, otherwise the room keeps the last trial's position and
orientation and stays off the placed list. -/
def greedy_step (C : Strategy) (s : PState) (i : ℕ) : PState :=
  greedy_commit s i
    ((_generate_candidate_positions C s.placed_rooms (s.rooms.getD i default)).1.foldl
      (greedy_trial C s.placed_rooms)
      ((_generate_candidate_positions C s.placed_rooms (s.rooms.getD i default)).2,
        -1, none, false, none))

/-- `_place_rooms_greedy(sorted_rooms)`: a single forward pass over the working
room list; returns the number of rooms placed and the final state. -/
def _place_rooms_greedy (C : Strategy) (s : PState) : ℕ × PState :=
  let s1 := (List.range s.rooms.length).foldl (fun t i => greedy_step C t i) s
  (s1.placed_rooms.length, s1)

/-- `place_rooms()`: clear, sort (a `ZeroDivisionError` in the sort key is `none`),
run backtracking with the timeout clock, and on failure clear again and fall back
to the greedy pass.  Returns the placed count, the final state, and the number of
clock reads. -/
def Strategy.place_rooms (C : Strategy) (clock : ℕ → ℚ) (s : PState) :
    Option (ℕ × PState × ℕ) :=
  let s0 := C.clear_placements s
  match C.sort_rooms s0.rooms with
  | none => none
  | some sorted_rooms =>
    let s1 : PState := { s0 with rooms := sorted_rooms }
    match _place_room_backtracking C clock (s1.rooms.length + 1) s1 0 0 with
    | (true, s2, t2) => some (s2.placed_rooms.length, s2, t2)
    | (false, s2, t2) =>
      let s3 := C.clear_placements s2
      let g := _place_rooms_greedy C s3
      some (g.1, g.2, t2)

/-- `get_adjacency_score()`: `(satisfied, total, ratio)` over the placed list;
for each placed room and each required neighbour id, `total` grows by one and
`satisfied` grows by one when some placed room with that id is adjacent (the inner
loop breaks at the first placed room that matches **and** is adjacent, which is
`List.any`).  `ratio = satisfied / total`, or `1.0` when `total = 0`.
`adjacency_tally` is one `(room1, neighbor_id)` update of `(satisfied, total)`. -/
def adjacency_tally (_C : Strategy) (placed_rooms : List Room) (room1 : Room)
    (st : ℕ × ℕ) (neighbor_id : ℕ) : ℕ × ℕ :=
  ((if placed_rooms.any (fun room2 => room2.id = neighbor_id ∧ room1.is_adjacent room2)
    then st.1 + 1 else st.1), st.2 + 1)

def Strategy.get_adjacency_score (C : Strategy) (placed_rooms : List Room) : ℕ × ℕ × ℚ :=
  let counts := placed_rooms.foldl (fun (st : ℕ × ℕ) room1 =>
    (C.adjacency_graph room1.id).foldl (adjacency_tally C placed_rooms room1) st) (0, 0)
  (counts.1, counts.2, if 0 < counts.2 then (counts.1 : ℚ) / (counts.2 : ℚ) else 1.0)

/-! ## Basic lemmas about the data model -/

theorem Room.rotate_rotate (r : Room) : r.rotate.rotate = r := by
  cases r; simp [Room.rotate]

theorem Room.orientTo_rotated (r : Room) (b : Bool) : (r.orientTo b).rotated = b := by
  cases hb : r.rotated <;> cases b <;> simp_all [Room.orientTo, Room.rotate]

/-- Two room values that are equal up to an application of `rotate` (same physical
shape, with the flag tracking which orientation the dimensions are in). -/
def sameShape (a b : Room) : Prop :=
  (a.width = b.width ∧ a.height = b.height ∧ a.rotated = b.rotated) ∨
  (a.width = b.height ∧ a.height = b.width ∧ a.rotated = !b.rotated)

theorem sameShape_refl (a : Room) : sameShape a a := Or.inl ⟨rfl, rfl, rfl⟩

theorem sameShape_rotate (a b : Room) (h : sameShape a b) : sameShape a.rotate b := by
  rcases h with ⟨h1, h2, h3⟩ | ⟨h1, h2, h3⟩
  · exact Or.inr (by simp [Room.rotate, h1, h2, h3])
  · exact Or.inl (by simp [Room.rotate, h1, h2, h3])

theorem sameShape_orientTo (a b : Room) (c : Bool) (h : sameShape a b) :
    sameShape (a.orientTo c) b := by
  unfold Room.orientTo
  split
  · exact sameShape_rotate a b h
  · exact h

theorem sameShape_update_pos_region (a b : Room) (p : Option (ℚ × ℚ)) (g : Option PlotRegion)
    (h : sameShape a b) : sameShape { a with pos := p, region := g } b := h

theorem sameShape_update_pos (a b : Room) (p : Option (ℚ × ℚ))
    (h : sameShape a b) : sameShape { a with pos := p } b := h

/-- Rooms of the same shape have identical dimensions once both are oriented to
the same flag value. -/
theorem orientTo_dims_congr (a b : Room) (c : Bool) (h : sameShape a b) :
    (a.orientTo c).width = (b.orientTo c).width ∧
    (a.orientTo c).height = (b.orientTo c).height := by
  rcases h with ⟨h1, h2, h3⟩ | ⟨h1, h2, h3⟩ <;> cases hb : b.rotated <;> cases c <;>
    simp_all [Room.orientTo, Room.rotate]

theorem fit_congr (a b : Room) (g : PlotRegion) (x y : ℚ)
    (hw : a.width = b.width) (hh : a.height = b.height) :
    _get_region_fit_score a g x y = _get_region_fit_score b g x y := by
  simp [_get_region_fit_score, PlotRegion.contains, Room.area, hw, hh]

theorem contains_congr (a b : Room) (g : PlotRegion) (x y : ℚ)
    (hw : a.width = b.width) (hh : a.height = b.height) :
    g.contains a x y = g.contains b x y := by
  simp [PlotRegion.contains, hw, hh]

theorem fit_pos_contains (room : Room) (g : PlotRegion) (x y : ℚ)
    (h : 0 < _get_region_fit_score room g x y) : g.contains room x y = true := by
  by_contra hc
  rw [_get_region_fit_score, if_neg (by simpa using hc)] at h
  exact absurd h (lt_irrefl 0)

theorem overlaps_comm (a b : Room) : a.overlaps b = b.overlaps a := by
  unfold Room.overlaps
  rcases a.pos with _ | ⟨ax, ay⟩ <;> rcases b.pos with _ | ⟨xb, yb⟩ <;> simp only []
  have h : (ax + a.width ≤ xb ∨ xb + b.width ≤ ax ∨ ay + a.height ≤ yb ∨ yb + b.height ≤ ay) ↔
      (xb + b.width ≤ ax ∨ ax + a.width ≤ xb ∨ yb + b.height ≤ ay ∨ ay + a.height ≤ yb) := by
    tauto
  rw [if_congr h rfl rfl]

theorem overlaps_congr (a a' b : Room) (hp : a.pos = a'.pos)
    (hw : a.width = a'.width) (hh : a.height = a'.height) :
    a.overlaps b = a'.overlaps b := by
  unfold Room.overlaps
  rw [hp, hw, hh]

/-- The placement invariant of the specification: placed rooms are pairwise
non-overlapping, and every placed room has an assigned region, a position, and
its rectangle contained in that region. -/
def placed_invariant (l : List Room) : Prop :=
  l.Pairwise (fun a b => a.overlaps b = false ∧ b.overlaps a = false) ∧
  ∀ r ∈ l, ∃ g, r.region = some g ∧ ∃ x y, r.pos = some (x, y) ∧ g.contains r x y = true

theorem placed_invariant_nil : placed_invariant [] := ⟨List.Pairwise.nil, by simp⟩

theorem placed_invariant_append (l : List Room) (r : Room)
    (h : placed_invariant l) (hov : ∀ p ∈ l, r.overlaps p = false)
    (hr : ∃ g, r.region = some g ∧ ∃ x y, r.pos = some (x, y) ∧ g.contains r x y = true) :
    placed_invariant (l ++ [r]) := by
  constructor
  · rw [List.pairwise_append]
    refine ⟨h.1, List.pairwise_singleton _ _, ?_⟩
    intro a ha b hb
    rcases List.mem_singleton.mp hb with rfl
    exact ⟨(overlaps_comm a b) ▸ hov a ha, hov a ha⟩
  · intro x hx
    rcases List.mem_append.mp hx with hx | hx
    · exact h.2 x hx
    · rcases List.mem_singleton.mp hx with rfl
      exact hr

/-! ## Candidate-generator lemmas -/

theorem orientTo_of_not_rotated (r : Room) (h : r.rotated = false) :
    r.orientTo false = r := by simp [Room.orientTo, h]

theorem orientTo_rotate_of_not_rotated (r : Room) (h : r.rotated = false) :
    r.orientTo true = r.rotate := by simp [Room.orientTo, h]

theorem mem_sortCandidates {c : Candidate} {l : List Candidate} :
    c ∈ sortCandidates l ↔ c ∈ l := List.mem_insertionSort _

/-- The fit-positivity carried by every candidate: its fit score, recomputed for
the generating room oriented to the candidate's flag, is positive. -/
def candidate_fit (room : Room) (c : Candidate) : Prop :=
  0 < _get_region_fit_score (room.orientTo c.is_rotated) c.region c.pos.1 c.pos.2

theorem adj_pos_fold_fit (C : Strategy) (placed_rooms : List Room) (room : Room) :
    ∀ (ps : List (ℚ × ℚ × Bool)) (acc2 : List Candidate × Room),
      sameShape acc2.2 room → (∀ c ∈ acc2.1, candidate_fit room c) →
      sameShape (ps.foldl (adj_pos_step C placed_rooms) acc2).2 room ∧
      ∀ c ∈ (ps.foldl (adj_pos_step C placed_rooms) acc2).1, candidate_fit room c := by
  intro ps
  induction ps with
  | nil => intro acc2 h1 h2; exact ⟨h1, h2⟩
  | cons p ps ih =>
    intro acc2 h1 h2
    rw [List.foldl_cons]
    apply ih
    · exact sameShape_orientTo _ _ _ h1
    · intro c hc
      rcases List.mem_append.mp hc with hc | hc
      · exact h2 c hc
      · rcases List.mem_filterMap.mp hc with ⟨region, _, hf⟩
        by_cases hfit :
            0 < _get_region_fit_score (acc2.2.orientTo p.2.2) region p.1 p.2.1
        · rw [if_pos hfit] at hf
          cases hf
          have hdims := orientTo_dims_congr acc2.2 room p.2.2 h1
          unfold candidate_fit
          rw [fit_congr _ (acc2.2.orientTo p.2.2) _ _ _ hdims.1.symm hdims.2.symm]
          exact hfit
        · rw [if_neg hfit] at hf
          cases hf

theorem adj_target_fold_fit (C : Strategy) (placed_rooms : List Room) (room : Room) :
    ∀ (ts : List Room) (acc : List Candidate × Room),
      sameShape acc.2 room → (∀ c ∈ acc.1, candidate_fit room c) →
      sameShape (ts.foldl (adj_target_step C placed_rooms) acc).2 room ∧
      ∀ c ∈ (ts.foldl (adj_target_step C placed_rooms) acc).1, candidate_fit room c := by
  intro ts
  induction ts with
  | nil => intro acc h1 h2; exact ⟨h1, h2⟩
  | cons t ts ih =>
    intro acc h1 h2
    rw [List.foldl_cons]
    apply ih
    · exact (adj_pos_fold_fit C placed_rooms room _ acc h1 h2).1
    · exact (adj_pos_fold_fit C placed_rooms room _ acc h1 h2).2

/-- With nothing placed, the generator is the sorted grid branch and the room is
returned unchanged. -/
theorem gen_eq_grid (C : Strategy) (room : Room) :
    _generate_candidate_positions C [] room = (sortCandidates (grid_candidates C room), room) := by
  unfold _generate_candidate_positions
  rw [if_pos (by simp [candidate_targets])]

/-- A nonempty placed list always yields a nonempty target list. -/
theorem candidate_targets_nil (C : Strategy) (room : Room) :
    candidate_targets C [] room = [] := by
  simp [candidate_targets]

theorem candidate_targets_ne_nil (C : Strategy) (placed_rooms : List Room) (room : Room)
    (h : placed_rooms ≠ []) : candidate_targets C placed_rooms room ≠ [] := by
  unfold candidate_targets
  by_cases hf : (placed_rooms.filter (fun r => (C.adjacency_graph room.id).contains r.id)).isEmpty
  · rw [if_pos ⟨hf, by simpa using h⟩]; exact h
  · rw [if_neg (fun hand => hf hand.1)]
    exact List.isEmpty_eq_false.mp (Bool.not_eq_true _ ▸ (by simpa using hf))

/-- With at least one placed room, the generator is the sorted adjacency-driven
branch over `candidate_targets`; the grid branch never runs. -/
theorem gen_eq_adjacency (C : Strategy) (placed_rooms : List Room) (room : Room)
    (h : placed_rooms ≠ []) :
    _generate_candidate_positions C placed_rooms room =
      (sortCandidates (adjacency_driven_candidates C placed_rooms room
          (candidate_targets C placed_rooms room)).1,
        (adjacency_driven_candidates C placed_rooms room
          (candidate_targets C placed_rooms room)).2) := by
  unfold _generate_candidate_positions
  rw [if_neg]
  simpa using candidate_targets_ne_nil C placed_rooms room h

theorem gen_snd_shape (C : Strategy) (placed_rooms : List Room) (room : Room) :
    sameShape (_generate_candidate_positions C placed_rooms room).2 room := by
  cases placed_rooms with
  | nil => rw [gen_eq_grid]; exact sameShape_refl room
  | cons p ps =>
    rw [gen_eq_adjacency C _ room (by simp)]
    exact (adj_target_fold_fit C _ room _ ([], room) (sameShape_refl room) (by simp)).1

theorem gen_fit (C : Strategy) (placed_rooms : List Room) (room : Room)
    (hflag : placed_rooms = [] → room.rotated = false) :
    ∀ c ∈ (_generate_candidate_positions C placed_rooms room).1, candidate_fit room c := by
  cases placed_rooms with
  | nil =>
    rw [gen_eq_grid]
    intro c hc
    rw [mem_sortCandidates] at hc
    rcases List.mem_flatMap.mp hc with ⟨region, _, hc⟩
    rcases List.mem_append.mp hc with hc | hc
    · rcases List.mem_filterMap.mp hc with ⟨p, _, hf⟩
      by_cases hfit : 0 < _get_region_fit_score room region p.1 p.2
      · rw [if_pos hfit] at hf
        cases hf
        unfold candidate_fit
        rw [orientTo_of_not_rotated room (hflag rfl)]
        exact hfit
      · rw [if_neg hfit] at hf; cases hf
    · by_cases hrot : C.optimize_rotations
      · rw [if_pos hrot] at hc
        rcases List.mem_filterMap.mp hc with ⟨p, _, hf⟩
        by_cases hfit : 0 < _get_region_fit_score room.rotate region p.1 p.2
        · rw [if_pos hfit] at hf
          cases hf
          unfold candidate_fit
          rw [orientTo_rotate_of_not_rotated room (hflag rfl)]
          exact hfit
        · rw [if_neg hfit] at hf; cases hf
      · rw [if_neg hrot] at hc; cases hc
  | cons p ps =>
    intro c hc
    rw [gen_eq_adjacency C _ room (by simp)] at hc
    rw [mem_sortCandidates] at hc
    exact (adj_target_fold_fit C _ room _ ([], room) (sameShape_refl room) (by simp)).2 c hc


/-! ## Backtracking-search lemmas -/

theorem getD_set_self (l : List Room) (i : ℕ) (a d : Room) (h : i < l.length) :
    (l.set i a).getD i d = a := by
  simp [List.getD_eq_getElem?_getD, List.getElem?_set_self h]

theorem getD_set_ne (l : List Room) (i j : ℕ) (a d : Room) (h : i ≠ j) :
    (l.set i a).getD j d = l.getD j d := by
  simp [List.getD_eq_getElem?_getD, List.getElem?_set_ne h]

theorem sameShape_place_at (r room : Room) (b : Bool) (p : ℚ × ℚ) (g : PlotRegion)
    (h : sameShape r room) : sameShape (r.place_at b p g) room :=
  sameShape_orientTo r room b h

theorem sameShape_move_to (r room : Room) (b : Bool) (p : ℚ × ℚ)
    (h : sameShape r room) : sameShape (r.move_to b p) room :=
  sameShape_orientTo r room b h

theorem restore_never_fires (r : Room) :
    (if r.rotated ≠ r.rotated then r.rotate else r) = r := if_neg (fun h => h rfl)

/-- What a call to `_place_room_backtracking` guarantees about its result flag `b`
and state `t`: room-list length is preserved, rooms before `room_idx` are
untouched, a failed call restores the placed list exactly, and a successful call
extends the placed list, satisfies the placement invariant, and has every room
from `room_idx` on in the placed list. -/
def bt_post (s : PState) (room_idx : ℕ) (b : Bool) (t : PState) : Prop :=
  t.rooms.length = s.rooms.length ∧
  (∀ j, j < room_idx → t.rooms.getD j default = s.rooms.getD j default) ∧
  (b = false → t.placed_rooms = s.placed_rooms) ∧
  (b = true → placed_invariant t.placed_rooms ∧
    (∃ l, t.placed_rooms = s.placed_rooms ++ l) ∧
    (∀ j, room_idx ≤ j → j < t.rooms.length → t.rooms.getD j default ∈ t.placed_rooms))

/-- Invariant of the candidate loop of `_place_room_backtracking`; `room` is the
value the candidates were generated from. -/
def bt_fold_inv (s : PState) (room_idx : ℕ) (room : Room) (b : Bool) (t : PState) : Prop :=
  t.rooms.length = s.rooms.length ∧
  (∀ j, j < room_idx → t.rooms.getD j default = s.rooms.getD j default) ∧
  (b = false → t.placed_rooms = s.placed_rooms ∧
    sameShape (t.rooms.getD room_idx default) room ∧
    placed_invariant t.placed_rooms) ∧
  (b = true → placed_invariant t.placed_rooms ∧
    (∃ l, t.placed_rooms = s.placed_rooms ++ l) ∧
    (∀ j, room_idx ≤ j → j < t.rooms.length → t.rooms.getD j default ∈ t.placed_rooms))

theorem bt_try_step (C : Strategy) (clock : ℕ → ℚ) (fuel : ℕ) (s : PState)
    (room_idx : ℕ) (room : Room) (hidx : room_idx < s.rooms.length)
    (ihnext : ∀ (t : PState) (tk : ℕ), placed_invariant t.placed_rooms →
      (t.placed_rooms = [] → (t.rooms.getD (room_idx + 1) default).rotated = false) →
      bt_post t (room_idx + 1)
        (_place_room_backtracking C clock fuel t (room_idx + 1) tk).1
        (_place_room_backtracking C clock fuel t (room_idx + 1) tk).2.1)
    (a : Bool × PState × ℕ) (c : Candidate) (hfit : candidate_fit room c)
    (hinv : bt_fold_inv s room_idx room a.1 a.2.1) :
    bt_fold_inv s room_idx room
      (bt_try room_idx (fun t tk => _place_room_backtracking C clock fuel t (room_idx + 1) tk)
        a c).1
      (bt_try room_idx (fun t tk => _place_room_backtracking C clock fuel t (room_idx + 1) tk)
        a c).2.1 := by
  obtain ⟨b, t, tk⟩ := a
  cases b
  case true => exact hinv
  case false =>
    obtain ⟨hlen, hlt, hfalse, -⟩ := hinv
    obtain ⟨hplaced, hshape, hpinv⟩ := hfalse rfl
    dsimp only at hlen hlt hplaced hshape hpinv
    have hlen' : room_idx < t.rooms.length := by rw [hlen]; exact hidx
    have hdims := orientTo_dims_congr (t.rooms.getD room_idx default) room c.is_rotated hshape
    have hfitR : 0 < _get_region_fit_score
        ((t.rooms.getD room_idx default).place_at c.is_rotated c.pos c.region)
        c.region c.pos.1 c.pos.2 := by
      rw [fit_congr ((t.rooms.getD room_idx default).place_at c.is_rotated c.pos c.region)
        (room.orientTo c.is_rotated) c.region c.pos.1 c.pos.2 hdims.1 hdims.2]
      exact hfit
    have hshapeR : sameShape
        ((t.rooms.getD room_idx default).place_at c.is_rotated c.pos c.region) room :=
      sameShape_place_at _ _ _ _ _ hshape
    have hgood : ∃ g,
        ((t.rooms.getD room_idx default).place_at c.is_rotated c.pos c.region).region = some g ∧
        ∃ x y,
          ((t.rooms.getD room_idx default).place_at c.is_rotated c.pos c.region).pos
            = some (x, y) ∧
          g.contains ((t.rooms.getD room_idx default).place_at c.is_rotated c.pos c.region) x y
            = true :=
      ⟨c.region, rfl, c.pos.1, c.pos.2, rfl, fit_pos_contains _ c.region _ _ hfitR⟩
    simp only [bt_try]
    split
    case isTrue hov =>
      refine ⟨by simpa using hlen, ?_, ?_, fun h => Bool.noConfusion h⟩
      · intro j hj
        dsimp only
        rw [getD_set_ne _ _ _ _ _ (Nat.ne_of_gt hj)]
        exact hlt j hj
      · intro _
        refine ⟨hplaced, ?_, hplaced ▸ hpinv⟩
        dsimp only
        rw [getD_set_self _ _ _ _ hlen']
        exact hshapeR
    case isFalse hov =>
      have hnov : ∀ p ∈ t.placed_rooms,
          ((t.rooms.getD room_idx default).place_at c.is_rotated c.pos c.region).overlaps p
            = false := by
        intro p hp
        by_contra hne
        exact hov (List.any_eq_true.mpr ⟨p, hp, by simpa using hne⟩)
      have hpinv2 : placed_invariant (t.placed_rooms ++
          [(t.rooms.getD room_idx default).place_at c.is_rotated c.pos c.region]) :=
        placed_invariant_append _ _ hpinv hnov hgood
      have post := ihnext
        ⟨t.rooms.set room_idx
            ((t.rooms.getD room_idx default).place_at c.is_rotated c.pos c.region),
          t.placed_rooms ++
            [(t.rooms.getD room_idx default).place_at c.is_rotated c.pos c.region]⟩
        tk hpinv2 (by simp)
      rcases hnext : _place_room_backtracking C clock fuel
        ⟨t.rooms.set room_idx
            ((t.rooms.getD room_idx default).place_at c.is_rotated c.pos c.region),
          t.placed_rooms ++
            [(t.rooms.getD room_idx default).place_at c.is_rotated c.pos c.region]⟩
        (room_idx + 1) tk with ⟨b3, t3, tk3⟩
      rw [hnext] at post
      dsimp only at post
      obtain ⟨plen, plt, pfalse, ptrue⟩ := post
      have plen' : t3.rooms.length = s.rooms.length := by
        rw [plen]
        simpa using hlen
      have pidx : t3.rooms.getD room_idx default =
          (t.rooms.getD room_idx default).place_at c.is_rotated c.pos c.region := by
        have h0 := plt room_idx (Nat.lt_succ_self _)
        rw [h0]
        exact getD_set_self _ _ _ _ hlen'
      have plow : ∀ j, j < room_idx → t3.rooms.getD j default = s.rooms.getD j default := by
        intro j hj
        rw [plt j (Nat.lt_succ_of_lt hj)]
        have := getD_set_ne t.rooms room_idx j
          ((t.rooms.getD room_idx default).place_at c.is_rotated c.pos c.region)
          default (Nat.ne_of_gt hj)
        rw [this]
        exact hlt j hj
      cases b3
      case false =>
        have hp3 := pfalse rfl
        refine ⟨plen', plow, ?_, fun h => Bool.noConfusion h⟩
        intro _
        refine ⟨?_, ?_, ?_⟩
        · show t3.placed_rooms.dropLast = s.placed_rooms
          rw [hp3]
          show (t.placed_rooms ++ [_]).dropLast = s.placed_rooms
          rw [List.dropLast_concat]
          exact hplaced
        · show sameShape (t3.rooms.getD room_idx default) room
          rw [pidx]
          exact hshapeR
        · show placed_invariant t3.placed_rooms.dropLast
          rw [hp3]
          show placed_invariant ((t.placed_rooms ++ [_]).dropLast)
          rw [List.dropLast_concat]
          exact hpinv
      case true =>
        obtain ⟨pinv, ⟨l, hpre⟩, pin⟩ := ptrue rfl
        refine ⟨plen', plow, fun h => Bool.noConfusion h, ?_⟩
        intro _
        refine ⟨pinv, ?_, ?_⟩
        · refine ⟨[(t.rooms.getD room_idx default).place_at c.is_rotated c.pos c.region] ++ l, ?_⟩
          rw [hpre]
          show (t.placed_rooms ++ [_]) ++ l = s.placed_rooms ++ ([_] ++ l)
          rw [hplaced, List.append_assoc]
        · intro j hj1 hj2
          rcases Nat.eq_or_lt_of_le hj1 with rfl | hj
          · rw [pidx, hpre]
            exact List.mem_append_left _
              (List.mem_append_right _ (List.mem_singleton.mpr rfl))
          · exact pin j hj hj2

theorem bt_fold_spec (C : Strategy) (clock : ℕ → ℚ) (fuel : ℕ) (s : PState)
    (room_idx : ℕ) (room : Room) (hidx : room_idx < s.rooms.length)
    (ihnext : ∀ (t : PState) (tk : ℕ), placed_invariant t.placed_rooms →
      (t.placed_rooms = [] → (t.rooms.getD (room_idx + 1) default).rotated = false) →
      bt_post t (room_idx + 1)
        (_place_room_backtracking C clock fuel t (room_idx + 1) tk).1
        (_place_room_backtracking C clock fuel t (room_idx + 1) tk).2.1) :
    ∀ (cands : List Candidate) (a : Bool × PState × ℕ),
      (∀ c ∈ cands, candidate_fit room c) →
      bt_fold_inv s room_idx room a.1 a.2.1 →
      bt_fold_inv s room_idx room
        (cands.foldl
          (bt_try room_idx
            (fun t tk => _place_room_backtracking C clock fuel t (room_idx + 1) tk)) a).1
        (cands.foldl
          (bt_try room_idx
            (fun t tk => _place_room_backtracking C clock fuel t (room_idx + 1) tk)) a).2.1 := by
  intro cands
  induction cands with
  | nil => intro a _ h; exact h
  | cons c cands ih =>
    intro a hc h
    rw [List.foldl_cons]
    exact ih _ (fun x hx => hc x (List.mem_cons_of_mem c hx))
      (bt_try_step C clock fuel s room_idx room hidx ihnext a c (hc c (List.mem_cons_self _ _)) h)

theorem bt_succ_eq (C : Strategy) (clock : ℕ → ℚ) (fuel : ℕ) (s : PState) (room_idx tick : ℕ)
    (h1 : ¬ C.timeout < clock tick) (h2 : ¬ s.rooms.length ≤ room_idx) :
    _place_room_backtracking C clock (fuel + 1) s room_idx tick =
      match (_generate_candidate_positions C s.placed_rooms
          (s.rooms.getD room_idx default)).1.foldl
          (bt_try room_idx (fun t tk => _place_room_backtracking C clock fuel t (room_idx + 1) tk))
          (false,
            (⟨s.rooms.set room_idx (_generate_candidate_positions C s.placed_rooms
              (s.rooms.getD room_idx default)).2, s.placed_rooms⟩ : PState),
            tick + 1) with
      | (true, t, tk) => (true, t, tk)
      | (false, t, tk) =>
        (false,
          (⟨t.rooms.set room_idx
            (if (t.rooms.getD room_idx default).rotated ≠ (t.rooms.getD room_idx default).rotated
              then (t.rooms.getD room_idx default).rotate
              else (t.rooms.getD room_idx default)).clear_placement,
            t.placed_rooms⟩ : PState), tk) := by
  rw [_place_room_backtracking.eq_def]
  dsimp only
  rw [if_neg h1, if_neg h2]

theorem bt_spec (C : Strategy) (clock : ℕ → ℚ) (fuel : ℕ) :
    ∀ (s : PState) (room_idx tick : ℕ),
      placed_invariant s.placed_rooms →
      (s.placed_rooms = [] → (s.rooms.getD room_idx default).rotated = false) →
      bt_post s room_idx
        (_place_room_backtracking C clock fuel s room_idx tick).1
        (_place_room_backtracking C clock fuel s room_idx tick).2.1 := by
  induction fuel with
  | zero =>
    intro s room_idx tick h1 h2
    exact ⟨rfl, fun j _ => rfl, fun _ => rfl, fun h => Bool.noConfusion h⟩
  | succ fuel ih =>
    intro s room_idx tick h1 h2
    by_cases ht : C.timeout < clock tick
    · unfold _place_room_backtracking
      rw [if_pos ht]
      exact ⟨rfl, fun j _ => rfl, fun _ => rfl, fun h => Bool.noConfusion h⟩
    · by_cases hge : s.rooms.length ≤ room_idx
      · unfold _place_room_backtracking
        rw [if_neg ht, if_pos hge]
        refine ⟨rfl, fun j _ => rfl, fun h => Bool.noConfusion h,
          fun _ => ⟨h1, ⟨[], by simp⟩, ?_⟩⟩
        intro j hj1 hj2
        exact absurd hj2 (Nat.not_lt.mpr (Nat.le_trans hge hj1))
      · have hidx : room_idx < s.rooms.length := Nat.lt_of_not_le hge
        rw [bt_succ_eq C clock fuel s room_idx tick ht hge]
        have hinit : bt_fold_inv s room_idx (s.rooms.getD room_idx default) false
            (⟨s.rooms.set room_idx (_generate_candidate_positions C s.placed_rooms
              (s.rooms.getD room_idx default)).2, s.placed_rooms⟩ : PState) := by
          refine ⟨by simp, ?_, ?_, fun h => Bool.noConfusion h⟩
          · intro j hj
            exact getD_set_ne _ _ _ _ _ (Nat.ne_of_gt hj)
          · intro _
            refine ⟨rfl, ?_, h1⟩
            dsimp only
            rw [getD_set_self _ _ _ _ hidx]
            exact gen_snd_shape C s.placed_rooms (s.rooms.getD room_idx default)
        have hfold := bt_fold_spec C clock fuel s room_idx (s.rooms.getD room_idx default)
          hidx
          (fun t tk hpi hfl =>
            ih t (room_idx + 1) tk hpi hfl)
          (_generate_candidate_positions C s.placed_rooms (s.rooms.getD room_idx default)).1
          (false,
            (⟨s.rooms.set room_idx (_generate_candidate_positions C s.placed_rooms
              (s.rooms.getD room_idx default)).2, s.placed_rooms⟩ : PState),
            tick + 1)
          (gen_fit C s.placed_rooms (s.rooms.getD room_idx default) h2) hinit
        rcases hres : (_generate_candidate_positions C s.placed_rooms
            (s.rooms.getD room_idx default)).1.foldl
          (bt_try room_idx
            (fun t tk => _place_room_backtracking C clock fuel t (room_idx + 1) tk))
          (false,
            (⟨s.rooms.set room_idx (_generate_candidate_positions C s.placed_rooms
              (s.rooms.getD room_idx default)).2, s.placed_rooms⟩ : PState),
            tick + 1) with ⟨b, t, tk⟩
        rw [hres] at hfold
        dsimp only at hfold
        obtain ⟨flen, flt, ffalse, ftrue⟩ := hfold
        cases b with
        | true =>
          obtain ⟨finv, fpre, fin⟩ := ftrue rfl
          exact ⟨flen, flt, fun h => Bool.noConfusion h, fun _ => ⟨finv, fpre, fin⟩⟩
        | false =>
          obtain ⟨fplaced, -, -⟩ := ffalse rfl
          refine ⟨by simpa using flen, ?_, fun _ => fplaced, fun h => Bool.noConfusion h⟩
          intro j hj
          dsimp only
          rw [getD_set_ne _ _ _ _ _ (Nat.ne_of_gt hj)]
          exact flt j hj

/-! ## Greedy-fallback lemmas -/

theorem orientTo_region (r : Room) (b : Bool) : (r.orientTo b).region = r.region := by
  unfold Room.orientTo
  split <;> rfl

theorem move_to_region (r : Room) (b : Bool) (p : ℚ × ℚ) :
    (r.move_to b p).region = r.region := orientTo_region r b

theorem adj_pos_fold_region (C : Strategy) (placed_rooms : List Room) :
    ∀ (ps : List (ℚ × ℚ × Bool)) (acc2 : List Candidate × Room),
      ((ps.foldl (adj_pos_step C placed_rooms) acc2).2).region = acc2.2.region := by
  intro ps
  induction ps with
  | nil => intro acc2; rfl
  | cons p ps ih =>
    intro acc2
    rw [List.foldl_cons, ih]
    exact orientTo_region _ _

theorem adj_target_fold_region (C : Strategy) (placed_rooms : List Room) :
    ∀ (ts : List Room) (acc : List Candidate × Room),
      ((ts.foldl (adj_target_step C placed_rooms) acc).2).region = acc.2.region := by
  intro ts
  induction ts with
  | nil => intro acc; rfl
  | cons t ts ih =>
    intro acc
    rw [List.foldl_cons, ih]
    exact adj_pos_fold_region C placed_rooms _ acc

theorem gen_snd_region (C : Strategy) (placed_rooms : List Room) (room : Room) :
    (_generate_candidate_positions C placed_rooms room).2.region = room.region := by
  cases placed_rooms with
  | nil => rw [gen_eq_grid]
  | cons p ps =>
    rw [gen_eq_adjacency C _ room (by simp)]
    exact adj_target_fold_region C _ _ ([], room)

/-- Invariant of the candidate loop of the greedy pass: the threaded room keeps
the generating room's shape orbit and region, and any recorded best candidate
has positive fit in its recorded region and overlaps no placed room. -/
def greedy_fold_inv (placed_rooms : List Room) (room : Room)
    (a : Room × ℚ × Option (ℚ × ℚ) × Bool × Option PlotRegion) : Prop :=
  sameShape a.1 room ∧ a.1.region = room.region ∧
  ∀ bp, a.2.2.1 = some bp →
    (∀ g, a.2.2.2.2 = some g →
      0 < _get_region_fit_score (room.move_to a.2.2.2.1 bp) g bp.1 bp.2) ∧
    ∀ p ∈ placed_rooms, (room.move_to a.2.2.2.1 bp).overlaps p = false

theorem greedy_trial_inv (C : Strategy) (placed_rooms : List Room) (room : Room)
    (a : Room × ℚ × Option (ℚ × ℚ) × Bool × Option PlotRegion) (c : Candidate)
    (hc : candidate_fit room c) (h : greedy_fold_inv placed_rooms room a) :
    greedy_fold_inv placed_rooms room (greedy_trial C placed_rooms a c) := by
  obtain ⟨h1, h2, h3⟩ := h
  have hdims := orientTo_dims_congr a.1 room c.is_rotated h1
  simp only [greedy_trial]
  split
  case isTrue hov =>
    exact ⟨sameShape_move_to _ _ _ _ h1, by rw [move_to_region]; exact h2, h3⟩
  case isFalse hov =>
    split
    case isTrue hlt =>
      refine ⟨sameShape_move_to _ _ _ _ h1, by rw [move_to_region]; exact h2, ?_⟩
      intro bp hbp
      obtain rfl : c.pos = bp := by injection hbp
      constructor
      · intro g hg
        obtain rfl : c.region = g := by injection hg
        rw [fit_congr (room.move_to c.is_rotated c.pos) (room.orientTo c.is_rotated)
          c.region c.pos.1 c.pos.2 rfl rfl]
        exact hc
      · intro p hp
        have hno : (a.1.move_to c.is_rotated c.pos).overlaps p = false := by
          by_contra hne
          exact hov (List.any_eq_true.mpr ⟨p, hp, by simpa using hne⟩)
        rw [overlaps_congr (room.move_to c.is_rotated c.pos) (a.1.move_to c.is_rotated c.pos) p
          rfl hdims.1.symm hdims.2.symm]
        exact hno
    case isFalse hlt =>
      exact ⟨sameShape_move_to _ _ _ _ h1, by rw [move_to_region]; exact h2, h3⟩

theorem greedy_fold_spec (C : Strategy) (placed_rooms : List Room) (room : Room) :
    ∀ (cands : List Candidate) (a : Room × ℚ × Option (ℚ × ℚ) × Bool × Option PlotRegion),
      (∀ c ∈ cands, candidate_fit room c) →
      greedy_fold_inv placed_rooms room a →
      greedy_fold_inv placed_rooms room (cands.foldl (greedy_trial C placed_rooms) a) := by
  intro cands
  induction cands with
  | nil => intro a _ h; exact h
  | cons c cands ih =>
    intro a hc h
    rw [List.foldl_cons]
    exact ih _ (fun x hx => hc x (List.mem_cons_of_mem c hx))
      (greedy_trial_inv C placed_rooms room a c (hc c (List.mem_cons_self _ _)) h)

theorem greedy_step_spec (C : Strategy) (s : PState) (i : ℕ)
    (hpi : placed_invariant s.placed_rooms)
    (hflag : (s.rooms.getD i default).rotated = false)
    (hregion : (s.rooms.getD i default).region = none)
    (hregs : ∀ j, ((s.rooms.getD j default).region = none ∨
      s.rooms.getD j default ∈ s.placed_rooms)) :
    placed_invariant (greedy_step C s i).placed_rooms ∧
    (greedy_step C s i).rooms.length = s.rooms.length ∧
    (∀ j, j ≠ i → (greedy_step C s i).rooms.getD j default = s.rooms.getD j default) ∧
    ((∃ l, (greedy_step C s i).placed_rooms = s.placed_rooms ++ l)) ∧
    (∀ j, (((greedy_step C s i).rooms.getD j default).region = none ∨
      (greedy_step C s i).rooms.getD j default ∈ (greedy_step C s i).placed_rooms)) := by
  have hfold := greedy_fold_spec C s.placed_rooms (s.rooms.getD i default)
    (_generate_candidate_positions C s.placed_rooms (s.rooms.getD i default)).1
    ((_generate_candidate_positions C s.placed_rooms (s.rooms.getD i default)).2,
      -1, none, false, none)
    (gen_fit C s.placed_rooms (s.rooms.getD i default) (fun _ => hflag))
    ⟨gen_snd_shape C s.placed_rooms (s.rooms.getD i default), by
      rw [gen_snd_region], fun bp hbp => by cases hbp⟩
  unfold greedy_step
  rcases hacc : (_generate_candidate_positions C s.placed_rooms
      (s.rooms.getD i default)).1.foldl
    (greedy_trial C s.placed_rooms)
    ((_generate_candidate_positions C s.placed_rooms (s.rooms.getD i default)).2,
      -1, none, false, none) with ⟨roomF, bs, bp, br, bg⟩
  rw [hacc] at hfold
  obtain ⟨f1, f2, f3⟩ := hfold
  dsimp only at f1 f2 f3
  rcases bp with _ | bp
  · -- no best position: the room keeps the last trial value, nothing is committed
    refine ⟨hpi, by simp [greedy_commit], ?_, ⟨[], by simp [greedy_commit]⟩, ?_⟩
    · intro j hj
      show (s.rooms.set i roomF).getD j default = s.rooms.getD j default
      exact getD_set_ne _ _ _ _ _ (fun h => hj h.symm)
    · intro j
      show ((s.rooms.set i roomF).getD j default).region = none ∨
        (s.rooms.set i roomF).getD j default ∈ s.placed_rooms
      by_cases hij : j = i
      · subst hij
        by_cases hlen : j < s.rooms.length
        · left
          rw [getD_set_self _ _ _ _ hlen, f2]
          exact hregion
        · left
          rw [List.getD_eq_getElem?_getD, List.getElem?_eq_none
            (by simpa using (Nat.le_of_not_lt hlen))]
          rfl
      · rw [getD_set_ne _ _ _ _ _ (fun h => hij h.symm)]
        exact hregs j
  · rcases bg with _ | bg
    · -- best position but no recorded region: the code takes the no-commit arm
      refine ⟨hpi, by simp [greedy_commit], ?_, ⟨[], by simp [greedy_commit]⟩, ?_⟩
      · intro j hj
        show (s.rooms.set i roomF).getD j default = s.rooms.getD j default
        exact getD_set_ne _ _ _ _ _ (fun h => hj h.symm)
      · intro j
        show ((s.rooms.set i roomF).getD j default).region = none ∨
          (s.rooms.set i roomF).getD j default ∈ s.placed_rooms
        by_cases hij : j = i
        · subst hij
          by_cases hlen : j < s.rooms.length
          · left
            rw [getD_set_self _ _ _ _ hlen, f2]
            exact hregion
          · left
            rw [List.getD_eq_getElem?_getD, List.getElem?_eq_none
              (by simpa using (Nat.le_of_not_lt hlen))]
            rfl
        · rw [getD_set_ne _ _ _ _ _ (fun h => hij h.symm)]
          exact hregs j
    · -- commit the recorded best candidate
      obtain ⟨hfit, hnov⟩ := f3 bp rfl
      have hfit' := hfit bg rfl
      have hdims := orientTo_dims_congr roomF (s.rooms.getD i default) br f1
      have hfitC : 0 < _get_region_fit_score (roomF.place_at br bp bg) bg bp.1 bp.2 := by
        rw [fit_congr (roomF.place_at br bp bg) ((s.rooms.getD i default).move_to br bp)
          bg bp.1 bp.2 hdims.1 hdims.2]
        exact hfit'
      have hnovC : ∀ p ∈ s.placed_rooms, (roomF.place_at br bp bg).overlaps p = false := by
        intro p hp
        rw [overlaps_congr (roomF.place_at br bp bg) ((s.rooms.getD i default).move_to br bp) p
          rfl hdims.1 hdims.2]
        exact hnov p hp
      have hpi2 : placed_invariant (s.placed_rooms ++ [roomF.place_at br bp bg]) :=
        placed_invariant_append _ _ hpi hnovC
          ⟨bg, rfl, bp.1, bp.2, rfl, fit_pos_contains _ bg _ _ hfitC⟩
      refine ⟨hpi2, by simp [greedy_commit], ?_, ⟨[roomF.place_at br bp bg], rfl⟩, ?_⟩
      · intro j hj
        show (s.rooms.set i (roomF.place_at br bp bg)).getD j default = s.rooms.getD j default
        exact getD_set_ne _ _ _ _ _ (fun h => hj h.symm)
      · intro j
        show ((s.rooms.set i (roomF.place_at br bp bg)).getD j default).region = none ∨
          (s.rooms.set i (roomF.place_at br bp bg)).getD j default
            ∈ s.placed_rooms ++ [roomF.place_at br bp bg]
        by_cases hij : j = i
        · subst hij
          by_cases hlen : j < s.rooms.length
          · right
            rw [getD_set_self _ _ _ _ hlen]
            exact List.mem_append_right _ (List.mem_singleton.mpr rfl)
          · left
            rw [List.getD_eq_getElem?_getD, List.getElem?_eq_none
              (by simpa using (Nat.le_of_not_lt hlen))]
            rfl
        · rw [getD_set_ne _ _ _ _ _ (fun h => hij h.symm)]
          rcases hregs j with h | h
          · left; exact h
          · right; exact List.mem_append_left _ h

theorem greedy_go_spec (C : Strategy) (s0 : PState)
    (hc : ∀ j, ((s0.rooms.getD j default).rotated = false ∧
      (s0.rooms.getD j default).region = none)) :
    ∀ (k i : ℕ) (s : PState),
      placed_invariant s.placed_rooms →
      s.rooms.length = s0.rooms.length →
      (∀ j, i ≤ j → s.rooms.getD j default = s0.rooms.getD j default) →
      (∀ j, ((s.rooms.getD j default).region = none ∨
        s.rooms.getD j default ∈ s.placed_rooms)) →
      placed_invariant ((List.range' i k).foldl (greedy_step C) s).placed_rooms ∧
      ∀ j, ((((List.range' i k).foldl (greedy_step C) s).rooms.getD j default).region = none ∨
        ((List.range' i k).foldl (greedy_step C) s).rooms.getD j default
          ∈ ((List.range' i k).foldl (greedy_step C) s).placed_rooms) := by
  intro k
  induction k with
  | zero => intro i s h1 h2 h3 h4; exact ⟨h1, h4⟩
  | succ k ih =>
    intro i s h1 h2 h3 h4
    rw [List.range'_succ, List.foldl_cons]
    have hstep := greedy_step_spec C s i h1
      (by rw [h3 i (Nat.le_refl i)]; exact (hc i).1)
      (by rw [h3 i (Nat.le_refl i)]; exact (hc i).2)
      h4
    obtain ⟨g1, g2, g3, -, g5⟩ := hstep
    refine ih (i + 1) (greedy_step C s i) g1 (by rw [g2]; exact h2) ?_ g5
    intro j hj
    rw [g3 j (by omega)]
    exact h3 j (by omega)

/-- The full greedy pass, started from a state whose rooms are all cleared (flag
false, no region) and whose placed list satisfies the invariant: the final state
satisfies the placement invariant, and every room value not in the placed list
has no region. -/
theorem greedy_spec (C : Strategy) (s : PState)
    (hc : ∀ j, ((s.rooms.getD j default).rotated = false ∧
      (s.rooms.getD j default).region = none))
    (hpi : placed_invariant s.placed_rooms)
    (hregs : ∀ j, ((s.rooms.getD j default).region = none ∨
      s.rooms.getD j default ∈ s.placed_rooms)) :
    placed_invariant (_place_rooms_greedy C s).2.placed_rooms ∧
    ∀ j, (((_place_rooms_greedy C s).2.rooms.getD j default).region = none ∨
      (_place_rooms_greedy C s).2.rooms.getD j default
        ∈ (_place_rooms_greedy C s).2.placed_rooms) := by
  unfold _place_rooms_greedy
  dsimp only
  rw [List.range_eq_range']
  exact greedy_go_spec C s hc s.rooms.length 0 s hpi rfl (fun j _ => rfl) hregs

/-! ## `place_rooms` glue lemmas -/

theorem clear_placements_placed (C : Strategy) (s : PState) :
    (C.clear_placements s).placed_rooms = [] := rfl

theorem clear_placements_mem (C : Strategy) (s : PState) :
    ∀ r ∈ (C.clear_placements s).rooms, r.rotated = false ∧ r.region = none := by
  intro r hr
  unfold Strategy.clear_placements at hr
  rcases List.mem_map.mp hr with ⟨a, -, rfl⟩
  exact ⟨rfl, rfl⟩

theorem getD_prop (l : List Room) (P : Room → Prop) (h : ∀ r ∈ l, P r) (hd : P default)
    (j : ℕ) : P (l.getD j default) := by
  rw [List.getD_eq_getElem?_getD]
  cases he : l[j]? with
  | none => exact hd
  | some a => exact h a (List.getElem?_mem he)

theorem clear_placements_cleared (C : Strategy) (s : PState) (j : ℕ) :
    ((C.clear_placements s).rooms.getD j default).rotated = false ∧
    ((C.clear_placements s).rooms.getD j default).region = none :=
  getD_prop _ _ (clear_placements_mem C s) ⟨rfl, rfl⟩ j

/-- Every sorted room comes from the input list (all the sort methods permute). -/
theorem sort_rooms_mem (C : Strategy) (rooms sorted : List Room)
    (hs : C.sort_rooms rooms = some sorted) : ∀ r ∈ sorted, r ∈ rooms := by
  unfold Strategy.sort_rooms at hs
  cases hm : C.sort_method <;> rw [hm] at hs
  case hybrid =>
    cases rooms with
    | nil =>
      injection hs with hs
      subst hs
      intro r hr
      exact absurd hr (List.not_mem_nil r)
    | cons r0 rest =>
      dsimp only at hs
      split at hs
      · exact absurd hs (by simp)
      · injection hs with hs
        subst hs
        intro r hr
        exact (List.mem_insertionSort _).mp hr
  all_goals
    injection hs with hs
  all_goals
    subst hs
  all_goals
    intro r hr
  all_goals
    exact (List.mem_insertionSort _).mp hr

theorem sorted_cleared (C : Strategy) (s : PState) (sorted : List Room)
    (hs : C.sort_rooms (C.clear_placements s).rooms = some sorted) (j : ℕ) :
    (sorted.getD j default).rotated = false ∧ (sorted.getD j default).region = none :=
  getD_prop _ _
    (fun r hr => clear_placements_mem C s r (sort_rooms_mem C _ sorted hs r hr))
    ⟨rfl, rfl⟩ j

/-- `place_rooms`, rewritten through the sort result: run backtracking from the
cleared, sorted state, and on failure clear again and run the greedy pass. -/
theorem place_rooms_eq (C : Strategy) (clock : ℕ → ℚ) (s : PState) (sorted : List Room)
    (hs : C.sort_rooms (C.clear_placements s).rooms = some sorted) :
    C.place_rooms clock s =
      (match _place_room_backtracking C clock (sorted.length + 1)
          (⟨sorted, []⟩ : PState) 0 0 with
      | (true, s2, t2) => some (s2.placed_rooms.length, s2, t2)
      | (false, s2, t2) =>
        some ((_place_rooms_greedy C (C.clear_placements s2)).1,
          (_place_rooms_greedy C (C.clear_placements s2)).2, t2)) := by
  unfold Strategy.place_rooms
  dsimp only
  rw [hs, clear_placements_placed]

/-- Claim C1: after any run of `place_rooms` — whether the backtracking search
succeeds or the greedy fallback runs — the placement invariant holds: the placed
rooms are pairwise non-overlapping, and every placed room's rectangle is
contained in its assigned region. -/
theorem c1_place_rooms_invariant (C : Strategy) (clock : ℕ → ℚ) (s : PState)
    (n : ℕ) (s' : PState) (t' : ℕ) (h : C.place_rooms clock s = some (n, s', t')) :
    placed_invariant s'.placed_rooms := by
  cases hs : C.sort_rooms (C.clear_placements s).rooms with
  | none =>
    unfold Strategy.place_rooms at h
    dsimp only at h
    rw [hs] at h
    exact Option.noConfusion h
  | some sorted =>
    rw [place_rooms_eq C clock s sorted hs] at h
    have hpost := bt_spec C clock (sorted.length + 1) (⟨sorted, []⟩ : PState) 0 0
      placed_invariant_nil (fun _ => (sorted_cleared C s sorted hs 0).1)
    rcases hbt : _place_room_backtracking C clock (sorted.length + 1)
      (⟨sorted, []⟩ : PState) 0 0 with ⟨b, s2, t2⟩
    rw [hbt] at h hpost
    obtain ⟨-, -, -, ptrue⟩ := hpost
    cases b with
    | true =>
      have h' := Option.some.inj h
      have hs2 : s2 = s' := congrArg (fun p => p.2.1) h'
      rw [← hs2]
      exact (ptrue rfl).1
    | false =>
      have h' := Option.some.inj h
      have hs2 : (_place_rooms_greedy C (C.clear_placements s2)).2 = s' :=
        congrArg (fun p => p.2.1) h'
      rw [← hs2]
      exact (greedy_spec C (C.clear_placements s2)
        (fun j => clear_placements_cleared C s2 j)
        placed_invariant_nil
        (fun j => Or.inl (clear_placements_cleared C s2 j).2)).1

/-! ## Remaining claim theorems (general statements) -/

theorem mem_getD_of_mem (l : List Room) (r : Room) (h : r ∈ l) :
    ∃ j, j < l.length ∧ l.getD j default = r := by
  rcases List.mem_iff_getElem.mp h with ⟨i, hi, he⟩
  refine ⟨i, hi, ?_⟩
  rw [List.getD_eq_getElem?_getD, List.getElem?_eq_getElem hi]
  exact he

/-- Claim C8 (amended): after `place_rooms` returns, every room of the working
list that is not in the placed list has its *region* unset; its position may
remain set, stale from the last overlap-failing candidate tried by the greedy
pass (`c8_stale_position_counterexample`), and on a backtracking success there
are no unplaced rooms at all. -/
theorem c8_unplaced_rooms_have_no_region (C : Strategy) (clock : ℕ → ℚ) (s : PState)
    (n : ℕ) (s' : PState) (t' : ℕ) (h : C.place_rooms clock s = some (n, s', t')) :
    ∀ r ∈ s'.rooms, r ∉ s'.placed_rooms → r.region = none := by
  cases hs : C.sort_rooms (C.clear_placements s).rooms with
  | none =>
    unfold Strategy.place_rooms at h
    dsimp only at h
    rw [hs] at h
    exact Option.noConfusion h
  | some sorted =>
    rw [place_rooms_eq C clock s sorted hs] at h
    have hpost := bt_spec C clock (sorted.length + 1) (⟨sorted, []⟩ : PState) 0 0
      placed_invariant_nil (fun _ => (sorted_cleared C s sorted hs 0).1)
    rcases hbt : _place_room_backtracking C clock (sorted.length + 1)
      (⟨sorted, []⟩ : PState) 0 0 with ⟨b, s2, t2⟩
    rw [hbt] at h hpost
    obtain ⟨-, -, -, ptrue⟩ := hpost
    cases b with
    | true =>
      have h' := Option.some.inj h
      have hs2 : s2 = s' := congrArg (fun p => p.2.1) h'
      subst hs2
      obtain ⟨-, -, pin⟩ := ptrue rfl
      intro r hr hnot
      rcases mem_getD_of_mem _ r hr with ⟨j, hj, hg⟩
      exact absurd (hg ▸ pin j (Nat.zero_le j) hj) hnot
    | false =>
      have h' := Option.some.inj h
      have hs2 : (_place_rooms_greedy C (C.clear_placements s2)).2 = s' :=
        congrArg (fun p => p.2.1) h'
      subst hs2
      have hg := (greedy_spec C (C.clear_placements s2)
        (fun j => clear_placements_cleared C s2 j)
        placed_invariant_nil
        (fun j => Or.inl (clear_placements_cleared C s2 j).2)).2
      intro r hr hnot
      rcases mem_getD_of_mem _ r hr with ⟨j, _, hgd⟩
      rcases hg j with hnone | hmem
      · rw [hgd] at hnone
        exact hnone
      · rw [hgd] at hmem
        exact absurd hmem hnot

theorem sort_rooms_nil (C : Strategy) : C.sort_rooms [] = some [] := by
  unfold Strategy.sort_rooms
  cases C.sort_method <;> rfl

/-- Claim C2: with an empty room list (and a nonempty region list), `place_rooms`
raises no exception, places `0` rooms after a single clock read, and
`get_adjacency_score` of the resulting empty placed list is `(0, 0, 1.0)` — for
every configuration, including the default `hybrid` sort (whose division by the
maximum room area is evaluated lazily per room and therefore never runs). -/
theorem c2_empty_room_list (C : Strategy) (clock : ℕ → ℚ) (placed0 : List Room)
    (_hreg : C.regions ≠ []) :
    C.place_rooms clock (⟨[], placed0⟩ : PState) = some (0, ⟨[], []⟩, 1) ∧
    C.get_adjacency_score [] = (0, 0, 1) := by
  constructor
  · have hs : C.sort_rooms (C.clear_placements (⟨[], placed0⟩ : PState)).rooms = some [] :=
      sort_rooms_nil C
    rw [place_rooms_eq C clock _ [] hs]
    by_cases ht : C.timeout < clock 0
    · rw [show _place_room_backtracking C clock (([] : List Room).length + 1)
          (⟨[], []⟩ : PState) 0 0 = (false, ⟨[], []⟩, 1) from by
        rw [_place_room_backtracking.eq_def]
        dsimp only
        rw [if_pos ht]]
      rfl
    · rw [show _place_room_backtracking C clock (([] : List Room).length + 1)
          (⟨[], []⟩ : PState) 0 0 = (true, ⟨[], []⟩, 1) from by
        rw [_place_room_backtracking.eq_def]
        dsimp only
        rw [if_neg ht, if_pos (show ([] : List Room).length ≤ 0 from Nat.le_refl 0)]]
      rfl
  · norm_num [Strategy.get_adjacency_score]

/-- Claim C3: with the timeout configured as `0` and a strictly positive wall
clock, `place_rooms` never attempts recursive backtracking — the one call made to
`_place_room_backtracking` fails its immediate timeout check, leaving the state
untouched after a single clock read — so the result is the clock-free greedy
pipeline; in particular two runs with identical inputs (any two positive clocks)
return identical placements. -/
theorem c3_timeout_zero_forces_greedy (C : Strategy) (clock clock' : ℕ → ℚ)
    (s : PState) (h0 : C.timeout = 0)
    (hc : ∀ k, 0 < clock k) (hc' : ∀ k, 0 < clock' k) :
    (∀ (t : PState) (idx tick fuel : ℕ),
      _place_room_backtracking C clock (fuel + 1) t idx tick = (false, t, tick + 1)) ∧
    (∀ sorted, C.sort_rooms (C.clear_placements s).rooms = some sorted →
      C.place_rooms clock s =
        some ((_place_rooms_greedy C (C.clear_placements (⟨sorted, []⟩ : PState))).1,
          (_place_rooms_greedy C (C.clear_placements (⟨sorted, []⟩ : PState))).2, 1)) ∧
    C.place_rooms clock s = C.place_rooms clock' s := by
  have hbt : ∀ (cl : ℕ → ℚ), (∀ k, 0 < cl k) → ∀ (t : PState) (idx tick fuel : ℕ),
      _place_room_backtracking C cl (fuel + 1) t idx tick = (false, t, tick + 1) := by
    intro cl hcl t idx tick fuel
    rw [_place_room_backtracking.eq_def]
    dsimp only
    rw [if_pos (h0 ▸ hcl tick)]
  have hpath : ∀ (cl : ℕ → ℚ), (∀ k, 0 < cl k) → ∀ sorted,
      C.sort_rooms (C.clear_placements s).rooms = some sorted →
      C.place_rooms cl s =
        some ((_place_rooms_greedy C (C.clear_placements (⟨sorted, []⟩ : PState))).1,
          (_place_rooms_greedy C (C.clear_placements (⟨sorted, []⟩ : PState))).2, 1) := by
    intro cl hcl sorted hsorted
    rw [place_rooms_eq C cl s sorted hsorted, hbt cl hcl]
  refine ⟨hbt clock hc, hpath clock hc, ?_⟩
  cases hsorted : C.sort_rooms (C.clear_placements s).rooms with
  | none =>
    unfold Strategy.place_rooms
    dsimp only
    rw [hsorted]
  | some sorted =>
    rw [hpath clock hc sorted hsorted, hpath clock' hc' sorted hsorted]

/-- Claim C4 (amended): the exhaustive grid-sampling fallback runs only when no
rooms are placed at all.  As soon as at least one room is placed, the generator
returns the (possibly empty) adjacency-driven candidates for `candidate_targets`
and never falls back to grid sampling — even when a grid position would fit
(`c4_no_fallback_counterexample`). -/
theorem c4_grid_fallback_only_when_nothing_placed (C : Strategy)
    (placed_rooms : List Room) (room : Room) (h : placed_rooms ≠ []) :
    _generate_candidate_positions C placed_rooms room =
      (sortCandidates (adjacency_driven_candidates C placed_rooms room
          (candidate_targets C placed_rooms room)).1,
        (adjacency_driven_candidates C placed_rooms room
          (candidate_targets C placed_rooms room)).2) :=
  gen_eq_adjacency C placed_rooms room h

/-- Claim C7 (amended): `clear_placements` empties the placed list and clears
every room's position, region, and rotated flag; the rooms' `width`/`height`
fields are left exactly as they are, so a room whose rotated flag is set at the
time of the call keeps its swapped dimensions
(`c7_swapped_dimensions_counterexample`). -/
theorem c7_clear_placements_resets (C : Strategy) (s : PState) :
    (C.clear_placements s).placed_rooms = [] ∧
    (C.clear_placements s).rooms.length = s.rooms.length ∧
    (∀ r ∈ (C.clear_placements s).rooms, r.pos = none ∧ r.region = none ∧ r.rotated = false) ∧
    (∀ j, ((C.clear_placements s).rooms.getD j default).width = (s.rooms.getD j default).width ∧
      ((C.clear_placements s).rooms.getD j default).height = (s.rooms.getD j default).height) := by
  refine ⟨rfl, by simp [Strategy.clear_placements], ?_, ?_⟩
  · intro r hr
    rcases List.mem_map.mp hr with ⟨a, -, rfl⟩
    exact ⟨rfl, rfl, rfl⟩
  · intro j
    unfold Strategy.clear_placements
    dsimp only
    rw [List.getD_eq_getElem?_getD, List.getD_eq_getElem?_getD, List.getElem?_map]
    cases s.rooms[j]? with
    | none => exact ⟨rfl, rfl⟩
    | some a => exact ⟨rfl, rfl⟩

theorem adjacency_tally_le (C : Strategy) (placed_rooms : List Room) (room1 : Room) :
    ∀ (ids : List ℕ) (st : ℕ × ℕ), st.1 ≤ st.2 →
      (ids.foldl (adjacency_tally C placed_rooms room1) st).1 ≤
        (ids.foldl (adjacency_tally C placed_rooms room1) st).2 := by
  intro ids
  induction ids with
  | nil => intro st h; exact h
  | cons i ids ih =>
    intro st h
    rw [List.foldl_cons]
    refine ih _ ?_
    unfold adjacency_tally
    split
    · exact Nat.add_le_add_right h 1
    · exact Nat.le_succ_of_le h

theorem adjacency_counts_le (C : Strategy) (placed_rooms : List Room) :
    ∀ (rs : List Room) (st : ℕ × ℕ), st.1 ≤ st.2 →
      (rs.foldl (fun st room1 =>
        (C.adjacency_graph room1.id).foldl (adjacency_tally C placed_rooms room1) st) st).1 ≤
      (rs.foldl (fun st room1 =>
        (C.adjacency_graph room1.id).foldl (adjacency_tally C placed_rooms room1) st) st).2 := by
  intro rs
  induction rs with
  | nil => intro st h; exact h
  | cons r rs ih =>
    intro st h
    rw [List.foldl_cons]
    exact ih _ (adjacency_tally_le C placed_rooms r _ st h)

/-- Claim C9: `get_adjacency_score` returns `(satisfied, total, ratio)` with
`satisfied ≤ total`, `ratio = satisfied / total` when `total > 0` and `1.0` when
`total = 0`; hence `ratio` always lies in `[0, 1]` and is `1.0` when no adjacency
requirements exist. -/
theorem c9_adjacency_score_bounds (C : Strategy) (placed_rooms : List Room) :
    (C.get_adjacency_score placed_rooms).1 ≤ (C.get_adjacency_score placed_rooms).2.1 ∧
    (C.get_adjacency_score placed_rooms).2.2 =
      (if 0 < (C.get_adjacency_score placed_rooms).2.1
        then ((C.get_adjacency_score placed_rooms).1 : ℚ) /
          ((C.get_adjacency_score placed_rooms).2.1 : ℚ)
        else 1) ∧
    0 ≤ (C.get_adjacency_score placed_rooms).2.2 ∧
    (C.get_adjacency_score placed_rooms).2.2 ≤ 1 := by
  have hle := adjacency_counts_le C placed_rooms placed_rooms (0, 0) (Nat.le_refl 0)
  unfold Strategy.get_adjacency_score
  dsimp only
  refine ⟨hle, by split <;> norm_num, ?_, ?_⟩
  · split
    · positivity
    · norm_num
  · split
    case isTrue hpos =>
      rw [div_le_one (by exact_mod_cast hpos)]
      exact_mod_cast hle
    case isFalse => norm_num

theorem foldl_add_sum (contrib : Room → ℚ) :
    ∀ (l : List Room) (a : ℚ),
      l.foldl (fun score p => score + contrib p) a = a + (l.map contrib).sum := by
  intro l
  induction l with
  | nil => intro a; simp
  | cons p l ih =>
    intro a
    rw [List.foldl_cons, ih]
    simp [add_assoc]

/-- Claim C10 (amended): in the candidate-scoring heuristic, each placed room
contributes `+1` when it is a required neighbour of the candidate room and they
are adjacent at the candidate position, and — independently, not only in the
reverse-only case — an additional `+0.5` when the candidate room is a required
neighbour of it and they are adjacent; so a symmetrically declared adjacent pair
contributes `1.5`, not `1` (`c10_symmetric_pair_counterexample`). -/
theorem c10_adjacency_heuristic_additive (C : Strategy) (placed_rooms : List Room)
    (room : Room) (position : ℚ × ℚ) (orientation : Bool) :
    _get_adjacency_score C placed_rooms room position orientation =
      (placed_rooms.map (fun placed_room =>
        (if (C.adjacency_graph room.id).contains placed_room.id ∧
            (room.move_to orientation position).is_adjacent placed_room then (1 : ℚ) else 0) +
        (if (C.adjacency_graph placed_room.id).contains room.id ∧
            (room.move_to orientation position).is_adjacent placed_room
          then (0.5 : ℚ) else 0))).sum := by
  have key : ∀ (l : List Room) (a : ℚ),
      (l.foldl (fun score placed_room =>
        if (C.adjacency_graph placed_room.id).contains room.id ∧
            (room.move_to orientation position).is_adjacent placed_room
          then (if (C.adjacency_graph room.id).contains placed_room.id ∧
              (room.move_to orientation position).is_adjacent placed_room
            then score + 1 else score) + 0.5
          else (if (C.adjacency_graph room.id).contains placed_room.id ∧
              (room.move_to orientation position).is_adjacent placed_room
            then score + 1 else score)) a)
      = a + (l.map (fun placed_room =>
        (if (C.adjacency_graph room.id).contains placed_room.id ∧
            (room.move_to orientation position).is_adjacent placed_room then (1 : ℚ) else 0) +
        (if (C.adjacency_graph placed_room.id).contains room.id ∧
            (room.move_to orientation position).is_adjacent placed_room
          then (0.5 : ℚ) else 0))).sum := by
    intro l
    induction l with
    | nil => intro a; simp
    | cons p l ih =>
      intro a
      rw [List.foldl_cons, ih, List.map_cons, List.sum_cons]
      by_cases hA : (C.adjacency_graph room.id).contains p.id ∧
          (room.move_to orientation position).is_adjacent p
      · by_cases hB : (C.adjacency_graph p.id).contains room.id ∧
            (room.move_to orientation position).is_adjacent p
        · simp only [if_pos hA, if_pos hB]; ring
        · simp only [if_pos hA, if_neg hB]; ring
      · by_cases hB : (C.adjacency_graph p.id).contains room.id ∧
            (room.move_to orientation position).is_adjacent p
        · simp only [if_neg hA, if_pos hB]; ring
        · simp only [if_neg hA, if_neg hB]; ring
  have h0 := key placed_rooms 0
  rw [zero_add] at h0
  exact h0

/-! ## Concrete instances: counterexamples, code-bug demonstrations, witnesses -/

/-- An adjacency mapping with no requirements at all. -/
def exAdjEmpty : ℕ → List ℕ := fun _ => []

/-- With a zero timeout and a positive clock, any backtracking call fails its
immediate timeout check, leaving the state untouched after one clock read. -/
theorem bt_timeout_zero (C : Strategy) (clock : ℕ → ℚ) (fuel : ℕ) (t : PState)
    (idx tick : ℕ) (h0 : C.timeout = 0) (hc : 0 < clock tick) :
    _place_room_backtracking C clock (fuel + 1) t idx tick = (false, t, tick + 1) := by
  rw [_place_room_backtracking.eq_def]
  dsimp only
  rw [if_pos (h0 ▸ hc)]

def exC5C : Strategy := ⟨[⟨0, 0, 3, 2⟩], exAdjEmpty, .area, false, 1, 0.7, 0.3, 30⟩

def exC5Placed : Room := ⟨1, 1, 1, some (0, 0), some ⟨0, 0, 3, 2⟩, false⟩

def exC5Room : Room := ⟨2, 1, 2, none, none, false⟩

set_option maxHeartbeats 1000000 in
/-- Claim C5: candidate generation is claimed to propose rotated placements only
when `optimize_rotations` is set; in the code, `get_adjacent_positions`
unconditionally emits rotated positions, so with rotation disabled the
adjacency-driven branch still returns a candidate with `is_rotated = true`: a
1×2 room next to a placed 1×1 room in a 3×2 region. -/
theorem c5_rotated_candidates_despite_disabled_rotation :
    exC5C.optimize_rotations = false ∧
    ((_generate_candidate_positions exC5C [exC5Placed] exC5Room).1.any
      (fun c => c.is_rotated)) = true := by
  constructor
  · rfl
  · norm_num [_generate_candidate_positions, candidate_targets, adjacency_driven_candidates,
      adj_target_step, adj_pos_step, grid_candidates, sortCandidates,
      _get_adjacency_score, _get_region_fit_score, Room.get_adjacent_positions, offsetRange,
      Room.orientTo, Room.rotate, Room.move_to, Room.is_adjacent, Room.get_rect, Room.area,
      are_adjacent, PlotRegion.contains, PlotRegion.get_sample_positions, stepCount,
      List.insertionSort, List.orderedInsert, List.filterMap_cons, List.filterMap_nil,
      Int.toNat_ofNat, List.cons_ne_nil, exC5C, exC5Placed, exC5Room, exAdjEmpty]

def exC6Adj : ℕ → List ℕ := fun n => if n = 3 then [1] else []

def exC6C : Strategy := ⟨[⟨0, 0, 2, 2⟩], exC6Adj, .area, false, 1, 0.7, 0.3, 30⟩

def exC6A : Room := ⟨1, 1, 1, some (0, 0), some ⟨0, 0, 2, 2⟩, false⟩

def exC6B : Room := ⟨2, 1, 2, some (1, 0), some ⟨0, 0, 2, 2⟩, false⟩

def exC6Room : Room := ⟨3, 1, 2, none, none, false⟩

def exC6S : PState := ⟨[exC6A, exC6B, exC6Room], [exC6A, exC6B]⟩

set_option maxHeartbeats 1000000 in
/-- Claim C6: on exhausting all candidates, `_place_room_backtracking` is claimed
to fully reset the room, restoring its orientation to the pre-attempt value; the
code's restore compares the room's rotated flag with itself and never fires, so a
1×2 room (rotated `false`) whose candidates all fail is returned with `pos` and
`region` cleared but `rotated = true` and its dimensions still swapped to 2×1. -/
theorem c6_orientation_not_restored_on_exhaustion :
    exC6Room.rotated = false ∧ exC6Room.width = 1 ∧ exC6Room.height = 2 ∧
    _place_room_backtracking exC6C (fun _ => 1) 1 exC6S 2 0 =
      (false, ⟨[exC6A, exC6B, ⟨3, 2, 1, none, none, true⟩], [exC6A, exC6B]⟩, 1) := by
  refine ⟨rfl, rfl, rfl, ?_⟩
  norm_num [_place_room_backtracking, bt_try, _generate_candidate_positions,
    candidate_targets, adjacency_driven_candidates, adj_target_step, adj_pos_step,
    grid_candidates, sortCandidates, _get_adjacency_score, _get_region_fit_score,
    Room.get_adjacent_positions, offsetRange, Room.orientTo, Room.rotate, Room.move_to,
    Room.place_at, Room.clear_placement, Room.overlaps, Room.is_adjacent, Room.get_rect,
    Room.area, are_adjacent, PlotRegion.contains, PlotRegion.get_sample_positions, stepCount,
    List.insertionSort, List.orderedInsert, List.filterMap_cons, List.filterMap_nil,
    Int.toNat_ofNat, List.cons_ne_nil, List.getD_cons_zero, List.getD_cons_succ,
    List.set_cons_zero, List.set_cons_succ,
    exC6C, exC6S, exC6A, exC6B, exC6Room, exC6Adj]

def exC7Room : Room := ⟨1, 2, 3, none, none, false⟩

def exC7C : Strategy := ⟨[], exAdjEmpty, .area, false, 1, 0.7, 0.3, 30⟩

/-- Claim C7 counterexample: a 2×3 room rotated before `clear_placements` comes
back with `rotated = false` but width 3 — not its original width 2 — so the
width/height are not restored to their pre-run values. -/
theorem c7_swapped_dimensions_counterexample :
    ((exC7C.clear_placements ⟨[exC7Room.rotate], [exC7Room.rotate]⟩).rooms.getD 0
        default).rotated = false ∧
    ((exC7C.clear_placements ⟨[exC7Room.rotate], [exC7Room.rotate]⟩).rooms.getD 0
        default).width = 3 ∧
    exC7Room.width = 2 := by
  norm_num [Strategy.clear_placements, exC7C, exC7Room, Room.rotate]

def exC10 : Strategy :=
  ⟨[⟨0, 0, 10, 10⟩], (fun n => if n = 1 then [2] else if n = 2 then [1] else []),
    .area, false, 1, 0.7, 0.3, 30⟩

/-- Claim C10 counterexample: for a symmetrically declared pair (1 requires 2 and
2 requires 1) that is adjacent at the candidate position, `_get_adjacency_score`
returns `1.5`, not the claimed `1`: the `+0.5` reverse bonus is added even when
the forward `+1` already applied. -/
theorem c10_symmetric_pair_counterexample :
    _get_adjacency_score exC10 [⟨2, 2, 2, some (2, 0), some ⟨0, 0, 10, 10⟩, false⟩]
      ⟨1, 2, 2, none, none, false⟩ (0, 0) false = 3/2 := by
  norm_num [_get_adjacency_score, exC10, Room.move_to, Room.orientTo, Room.rotate,
    Room.is_adjacent, Room.get_rect, are_adjacent]

def exC4C : Strategy := ⟨[⟨0, 0, 1, 1⟩, ⟨5, 5, 7, 7⟩], exAdjEmpty, .area, false, 1, 0.7, 0.3, 30⟩

def exC4Placed : Room := ⟨1, 1, 1, some (0, 0), some ⟨0, 0, 1, 1⟩, false⟩

def exC4Room : Room := ⟨2, 1, 1, none, none, false⟩

set_option maxHeartbeats 1000000 in
/-- Claim C4 counterexample: with one room placed (filling region `(0,0)–(1,1)`),
the adjacency-driven branch yields no candidates for a second 1×1 room, yet the
generator returns the empty list instead of falling back to grid sampling, even
though grid sampling would find five fitting positions. -/
theorem c4_no_fallback_counterexample :
    (_generate_candidate_positions exC4C [exC4Placed] exC4Room).1 = [] ∧
    grid_candidates exC4C exC4Room =
      [⟨(0, 0), ⟨0, 0, 1, 1⟩, false, 1⟩,
       ⟨(5, 5), ⟨5, 5, 7, 7⟩, false, 1/3⟩,
       ⟨(5, 6), ⟨5, 5, 7, 7⟩, false, 1/3⟩,
       ⟨(6, 5), ⟨5, 5, 7, 7⟩, false, 1/3⟩,
       ⟨(6, 6), ⟨5, 5, 7, 7⟩, false, 1/3⟩] := by
  constructor <;>
    norm_num [_generate_candidate_positions, candidate_targets, adjacency_driven_candidates,
      adj_target_step, adj_pos_step, grid_candidates, sortCandidates,
      _get_adjacency_score, _get_region_fit_score, Room.get_adjacent_positions, offsetRange,
      Room.orientTo, Room.rotate, Room.move_to, Room.is_adjacent, Room.get_rect, Room.area,
      are_adjacent, PlotRegion.contains, PlotRegion.get_sample_positions, stepCount,
      List.insertionSort, List.orderedInsert, List.filterMap_cons, List.filterMap_nil,
      Int.toNat_ofNat, List.cons_ne_nil, List.range_succ, List.range_zero,
      exC4C, exC4Placed, exC4Room, exAdjEmpty]

/-- Claim C4 witness: the no-fallback equation of
`c4_grid_fallback_only_when_nothing_placed` at the concrete one-room placed
state. -/
theorem c4_grid_fallback_witness :
    [exC4Placed] ≠ [] ∧
    _generate_candidate_positions exC4C [exC4Placed] exC4Room =
      (sortCandidates (adjacency_driven_candidates exC4C [exC4Placed] exC4Room
          (candidate_targets exC4C [exC4Placed] exC4Room)).1,
        (adjacency_driven_candidates exC4C [exC4Placed] exC4Room
          (candidate_targets exC4C [exC4Placed] exC4Room)).2) :=
  ⟨by simp, c4_grid_fallback_only_when_nothing_placed exC4C [exC4Placed] exC4Room (by simp)⟩

def exC1C : Strategy := ⟨[⟨2, 1, 3, 2⟩], exAdjEmpty, .area, false, 1, 0.7, 0.3, 0⟩

def exC1Room : Room := ⟨1, 1, 1, none, none, false⟩

def exC1Placed : Room := ⟨1, 1, 1, some (2, 1), some ⟨2, 1, 3, 2⟩, false⟩

set_option maxHeartbeats 1000000 in
/-- Claim C1 witness: a run of `place_rooms` through the greedy path placing one
1×1 room in a 1×1 region satisfies the placement invariant. -/
theorem c1_invariant_witness : placed_invariant [exC1Placed] :=
  c1_place_rooms_invariant exC1C (fun _ => 1) (⟨[exC1Room], []⟩ : PState) 1
    (⟨[exC1Placed], [exC1Placed]⟩ : PState) 1
    (by
      rw [place_rooms_eq exC1C (fun _ => 1) (⟨[exC1Room], []⟩ : PState) [exC1Room]
        (by norm_num [Strategy.sort_rooms, Strategy.clear_placements, exC1C, exC1Room,
          List.insertionSort, List.orderedInsert, Room.area, exAdjEmpty]),
        bt_timeout_zero exC1C (fun _ => 1) _ _ 0 0 rfl (by norm_num)]
      norm_num [Strategy.clear_placements, _place_rooms_greedy, greedy_step, greedy_commit,
        greedy_trial, _generate_candidate_positions, candidate_targets,
        adjacency_driven_candidates, adj_target_step, adj_pos_step, grid_candidates,
        sortCandidates, _get_adjacency_score, _get_region_fit_score,
        Room.get_adjacent_positions, offsetRange, Room.orientTo, Room.rotate, Room.move_to,
        Room.place_at, Room.overlaps, Room.is_adjacent, Room.get_rect, Room.area,
        are_adjacent, PlotRegion.contains, PlotRegion.get_sample_positions, stepCount,
        List.insertionSort, List.orderedInsert, List.filterMap_cons, List.filterMap_nil,
        Int.toNat_ofNat, List.range_succ, List.range_zero, List.foldl_append,
        List.foldl_cons, List.foldl_nil, List.getD_cons_zero, List.set_cons_zero,
        List.cons_ne_nil, exC1C, exC1Room, exC1Placed, exAdjEmpty])

/-- Claim C2 witness: the empty-room-list result at a concrete configuration with
one region. -/
theorem c2_empty_witness :
    exC1C.place_rooms (fun _ => 1) (⟨[], []⟩ : PState) = some (0, ⟨[], []⟩, 1) ∧
    exC1C.get_adjacency_score [] = (0, 0, 1) :=
  c2_empty_room_list exC1C (fun _ => 1) [] (by simp [exC1C])

def exC8C : Strategy := ⟨[⟨0, 0, 2, 1⟩], exAdjEmpty, .area, false, 1, 0.7, 0.3, 0⟩

def exC8S : PState :=
  ⟨[⟨1, 1, 1, none, none, false⟩, ⟨2, 1, 1, none, none, false⟩,
    ⟨3, 1, 1, none, none, false⟩], []⟩

/-- Claim C3 witness: the timeout-0 configuration `exC8C` on three 1×1 rooms —
backtracking returns immediately, the result is the greedy pipeline, and two runs
with different (positive) clocks agree. -/
theorem c3_timeout_zero_witness :
    (∀ (t : PState) (idx tick fuel : ℕ),
      _place_room_backtracking exC8C (fun _ => 1) (fuel + 1) t idx tick =
        (false, t, tick + 1)) ∧
    (∀ sorted, exC8C.sort_rooms (exC8C.clear_placements exC8S).rooms = some sorted →
      exC8C.place_rooms (fun _ => 1) exC8S =
        some ((_place_rooms_greedy exC8C
            (exC8C.clear_placements (⟨sorted, []⟩ : PState))).1,
          (_place_rooms_greedy exC8C
            (exC8C.clear_placements (⟨sorted, []⟩ : PState))).2, 1)) ∧
    exC8C.place_rooms (fun _ => 1) exC8S = exC8C.place_rooms (fun _ => 2) exC8S :=
  c3_timeout_zero_forces_greedy exC8C (fun _ => 1) (fun _ => 2) exC8S rfl
    (fun _ => by norm_num) (fun _ => by norm_num)

def exC8R1 : Room := ⟨1, 1, 1, some (0, 0), some ⟨0, 0, 2, 1⟩, false⟩

def exC8R2 : Room := ⟨2, 1, 1, some (1, 0), some ⟨0, 0, 2, 1⟩, false⟩

def exC8R3 : Room := ⟨3, 1, 1, some (0, 0), none, true⟩

set_option maxHeartbeats 4000000 in
/-- Claim C8 counterexample: a greedy run on three 1×1 rooms in a 1×2 region
places the first two; the third room ends off the placed list with `region`
unset but `pos = some (0, 0)` — the stale position of the last overlap-failing
candidate it tried — so an unplaced room's `x, y` are not unset. -/
theorem c8_stale_position_counterexample :
    Strategy.place_rooms exC8C (fun _ => 1) exC8S =
      some (2, ⟨[exC8R1, exC8R2, exC8R3], [exC8R1, exC8R2]⟩, 1) ∧
    exC8R3 ∉ [exC8R1, exC8R2] ∧ exC8R3.pos = some (0, 0) := by
  refine ⟨?_, by norm_num [exC8R1, exC8R2, exC8R3], rfl⟩
  rw [place_rooms_eq exC8C (fun _ => 1) exC8S
    [⟨1, 1, 1, none, none, false⟩, ⟨2, 1, 1, none, none, false⟩,
      ⟨3, 1, 1, none, none, false⟩]
    (by norm_num [Strategy.sort_rooms, Strategy.clear_placements, exC8C, exC8S, exAdjEmpty,
      List.insertionSort, List.orderedInsert, Room.area]),
    bt_timeout_zero exC8C (fun _ => 1) _ _ 0 0 rfl (by norm_num)]
  norm_num [Strategy.clear_placements, _place_rooms_greedy, greedy_step, greedy_commit,
    greedy_trial, _generate_candidate_positions, candidate_targets, adjacency_driven_candidates,
    adj_target_step, adj_pos_step, grid_candidates, sortCandidates,
    _get_adjacency_score, _get_region_fit_score, Room.get_adjacent_positions, offsetRange,
    Room.orientTo, Room.rotate, Room.move_to, Room.place_at, Room.overlaps, Room.is_adjacent,
    Room.get_rect, Room.area, are_adjacent, PlotRegion.contains, PlotRegion.get_sample_positions,
    stepCount, List.insertionSort, List.orderedInsert, List.filterMap_cons, List.filterMap_nil,
    Int.toNat_ofNat, List.range_succ, List.foldl_append, List.foldl_cons, List.foldl_nil,
    List.getD_cons_zero, List.getD_cons_succ, List.set_cons_zero, List.set_cons_succ,
    List.cons_ne_nil, exC8C, exC8S, exAdjEmpty, exC8R1, exC8R2, exC8R3]

def exC8WC : Strategy := ⟨[⟨0, 0, 1, 1⟩], exAdjEmpty, .area, false, 1, 0.7, 0.3, 0⟩

def exC8WRoom : Room := ⟨1, 2, 2, none, none, false⟩

/-- Claim C8 witness: a 2×2 room that fits nowhere in a 1×1 region stays
unplaced after `place_rooms`, and its `region` is unset. -/
theorem c8_unplaced_region_witness : exC8WRoom.region = none :=
  c8_unplaced_rooms_have_no_region exC8WC (fun _ => 1) (⟨[exC8WRoom], []⟩ : PState) 0
    (⟨[exC8WRoom], []⟩ : PState) 1
    (by norm_num [Strategy.place_rooms, Strategy.clear_placements, Strategy.sort_rooms,
      _place_room_backtracking, bt_try, _place_rooms_greedy, greedy_step, greedy_commit,
      greedy_trial, _generate_candidate_positions, candidate_targets,
      adjacency_driven_candidates, adj_target_step, adj_pos_step, grid_candidates,
      sortCandidates, _get_region_fit_score, PlotRegion.get_sample_positions, stepCount,
      Room.rotate, Room.area, Int.toNat_ofNat, List.cons_ne_nil, List.range_succ,
      List.foldl_append, List.foldl_cons, List.foldl_nil, List.getD_cons_zero,
      List.insertionSort, List.orderedInsert, List.filterMap_cons, List.filterMap_nil,
      List.set_cons_zero, exC8WC, exC8WRoom, exAdjEmpty])
    exC8WRoom (by simp) (by simp)
